import Mathlib

/-!
Verification development for the ros2_snapshot entity-extraction and
reconciliation engine.  Python strings are modelled as lists of characters
(`Str`), Python dicts as insertion-ordered association lists, and the
relevant classes as explicit state records.  Each definition is a direct
translation of the named source function.
-/

set_option maxRecDepth 4000

namespace RosSnapshot

/-- Python strings, modelled as lists of characters so that every string
operation the source uses (split, substring test, comparison) is a
computable Lean function. -/
abbrev Str := List Char

/-- Python substring test `a in b` (contiguous substring; the empty string
is a substring of everything). -/
def pyIn (a b : Str) : Bool :=
  a.isPrefixOf b || (match b with | [] => false | _ :: t => pyIn a t)

/-- Python `s.split(sep)` for a one-character separator: splitting the
empty string yields `[""]`, and separators at the ends yield empty
fields, exactly as in Python. -/
def pySplit (sep : Char) : Str → List Str
  | [] => [[]]
  | c :: rest =>
    let r := pySplit sep rest
    if c = sep then [] :: r
    else
      match r with
      | [] => [[c]]
      | h :: t => (c :: h) :: t

/-- Trailing token of a hierarchical name: Python `name.split("/")[-1]`. -/
def lastToken (s : Str) : Str := (pySplit '/' s).getLastD []

/-- Last path segment of a command-line word: Python `cmd.split("/")[-1]`. -/
def lastPathSeg (cmd : Str) : Str := (pySplit '/' cmd).getLastD []

/-- Python string `<` (lexicographic on code points). -/
def pyStrLt : Str → Str → Bool
  | [], [] => false
  | [], _ :: _ => true
  | _ :: _, [] => false
  | a :: as, b :: bs => if a < b then true else if b < a then false else pyStrLt as bs

/-- Stable insertion used to model Python `sorted`. -/
def pyInsert (x : Str) : List Str → List Str
  | [] => [x]
  | y :: ys => if pyStrLt y x then y :: pyInsert x ys else x :: y :: ys

/-- Python `sorted(...)` over strings (stable, ascending). -/
def pySorted (l : List Str) : List Str := l.foldr pyInsert []

/-- Python dict assignment `m[k] = v`: replace the value of an existing
key in place, otherwise append the new binding (insertion order). -/
def dictSet {β : Type} (m : List (Str × β)) (k : Str) (v : β) : List (Str × β) :=
  if (m.lookup k).isSome then m.map (fun p => if p.1 == k then (k, v) else p)
  else m ++ [(k, v)]

/-- Python `k in m` for a dict. -/
def dictContains {β : Type} (m : List (Str × β)) (k : Str) : Bool :=
  (m.lookup k).isSome

section Filters

/-!
`core/utilities/filters.py`.  The singleton built by `Filter.get_filter`
stores `self._base_exclusions = self.__class__.BASE_EXCLUSIONS` by
reference, so later mutations of the class-level set are visible to
`should_filter_out`; we model the instance as the pair of booleans it
captured at construction and let `shouldFilterOut` read the current
class-level sets (the aliasing makes the instance and the class share
them).  Class-level rebinding (assigning a brand-new set object) is
outside this model; the claims are about mutation (adding items).
-/

/-- Class-level state of one `Filter` subclass: the three exclusion sets,
the two class flags, and the memoized singleton (`INSTANCE`), recorded as
the flag pair the constructor captured. -/
structure FilterClass where
  base : List Str
  debugExc : List Str
  tfExc : List Str
  filterOutDebug : Bool
  filterOutTf : Bool
  inst : Option (Bool × Bool)

/-- The constructor `Filter.__init__(filter_out_debug, filter_out_tf)`:
it aliases `BASE_EXCLUSIONS` unconditionally and aliases the debug/tf
sets only when the corresponding flag is set, which the instance records
as the captured flag pair. -/
def mkFilterInstance (d t : Bool) : Bool × Bool := (d, t)

/-- The classmethod `Filter.get_filter`: construct the singleton from the
current class flags if absent, otherwise return the stored one. -/
def getFilter (c : FilterClass) : FilterClass × (Bool × Bool) :=
  match c.inst with
  | some i => (c, i)
  | none =>
    let i := mkFilterInstance c.filterOutDebug c.filterOutTf
    ({ c with inst := some i }, i)

/-- The method `Filter.should_filter_out(item)` of an instance that
captured flags `i`, evaluated against the live class-level sets (which
the instance holds by reference). -/
def shouldFilterOut (c : FilterClass) (i : Bool × Bool) (item : Str) : Bool :=
  c.base.contains item
    || (i.1 && c.debugExc.contains item)
    || (i.2 && c.tfExc.contains item)

/-- Mutation of the class-level set, for example
`NodeFilter.BASE_EXCLUSIONS.add(item)`. -/
def addBaseExclusion (c : FilterClass) (item : Str) : FilterClass :=
  { c with base := item :: c.base }

/-- Reassignment of the class-level flags `FILTER_OUT_DEBUG` /
`FILTER_OUT_TF` (the sets and the memoized singleton are untouched). -/
def setFlags (c : FilterClass) (d t : Bool) : FilterClass :=
  { c with filterOutDebug := d, filterOutTf := t }

end Filters

section BankBuilders

/-!
`snapshot/builders/base_builders.py`, class `_BankBuilder`.  The bank is
the dict `_names_to_entity_builders`; the subclass hooks
(`_create_entity_builder`, `_should_filter_out`, per-builder `prepare`)
are passed in as functions.  `__getitem__` may raise `KeyError` only if a
freshly created builder is stored under a name different from the lookup
key, so the lookup result is an `Option`.
-/

/-- State of a `_BankBuilder`: the insertion-ordered dict of names to
entity builders. -/
structure BankBuilder (β : Type) where
  namesTo : List (Str × β)

/-- The method `_BankBuilder.add_entity_builder`: store the builder under
its own name. -/
def BankBuilder.addEntityBuilder {β : Type} (nameOf : β → Str)
    (b : BankBuilder β) (eb : β) : BankBuilder β :=
  ⟨dictSet b.namesTo (nameOf eb) eb⟩

/-- The method `_BankBuilder.__getitem__`: create and store a fresh
builder when the name is absent, then look the name up. -/
def BankBuilder.getItem {β : Type} (create : Str → β) (nameOf : β → Str)
    (b : BankBuilder β) (name : Str) : BankBuilder β × Option β :=
  if dictContains b.namesTo name then (b, b.namesTo.lookup name)
  else
    let b' := b.addEntityBuilder nameOf (create name)
    (b', b'.namesTo.lookup name)

/-- The helper `_gather_filtered_names_to_entity_builders`: keep exactly
the builders the subclass filter does not exclude. -/
def BankBuilder.gatherFiltered {β : Type} (filt : Str → β → Bool)
    (b : BankBuilder β) : BankBuilder β :=
  ⟨b.namesTo.filter (fun p => !(filt p.1 p.2))⟩

/-- The method `_BankBuilder.prepare`: replace the dict by its filtered
version, then run each surviving builder's own `prepare` (modelled by
`prepOne`); the base `_post_prepare` is a no-op. -/
def BankBuilder.prepare {β : Type} (filt : Str → β → Bool) (prepOne : β → β)
    (b : BankBuilder β) : BankBuilder β :=
  let kept := b.gatherFiltered filt
  ⟨kept.namesTo.map (fun p => (p.1, prepOne p.2))⟩

end BankBuilders

section DictLemmas

theorem lookup_append_single_of_none {β : Type} (m : List (Str × β)) (k : Str) (v : β)
    (h : m.lookup k = none) : (m ++ [(k, v)]).lookup k = some v := by
  induction m with
  | nil => simp only [List.nil_append, List.lookup_cons, beq_self_eq_true]
  | cons p rest ih =>
    obtain ⟨a, w⟩ := p
    rw [List.lookup_cons] at h
    rcases hk : (k == a) with _ | _
    · rw [hk] at h
      rw [List.cons_append, List.lookup_cons, hk]
      exact ih h
    · rw [hk] at h
      exact Option.noConfusion h

theorem lookup_filter_prep_none {β : Type} (filt : Str → β → Bool) (prepOne : β → β)
    (m : List (Str × β)) (k : Str) (h : ∀ v : β, filt k v = true) :
    ((m.filter (fun p => !(filt p.1 p.2))).map (fun p => (p.1, prepOne p.2))).lookup k
      = none := by
  induction m with
  | nil => exact List.lookup_nil
  | cons p rest ih =>
    obtain ⟨a, w⟩ := p
    by_cases hf : filt a w = true
    · simpa only [List.filter_cons, hf, Bool.not_true, Bool.false_eq_true, if_false]
        using ih
    · have hne : (k == a) = false := by
        rcases hk : (k == a) with _ | _
        · rfl
        · exact absurd (by rw [eq_of_beq hk] at h; exact h w) hf
      rw [List.filter_cons,
        if_pos (by
          show (!filt a w) = true
          cases hfw : filt a w with
          | true => exact absurd hfw hf
          | false => rfl),
        List.map_cons, List.lookup_cons, hne]
      exact ih

theorem lookup_append_left_none {β : Type} (m m' : List (Str × β)) (k : Str)
    (h : m.lookup k = none) : (m ++ m').lookup k = m'.lookup k := by
  induction m with
  | nil => rfl
  | cons p rest ih =>
    obtain ⟨a, w⟩ := p
    rw [List.lookup_cons] at h
    rcases hk : (k == a) with _ | _
    · rw [hk] at h
      rw [List.cons_append, List.lookup_cons, hk]
      exact ih h
    · rw [hk] at h
      exact Option.noConfusion h

theorem dictSet_absent {β : Type} (m : List (Str × β)) (k : Str) (v : β)
    (h : m.lookup k = none) : dictSet m k v = m ++ [(k, v)] := by
  unfold dictSet
  rw [h]
  rfl

theorem dictSet_keys {β : Type} (m : List (Str × β)) (k : Str) (v : β) :
    (dictSet m k v).map Prod.fst
      = if (m.lookup k).isSome then m.map Prod.fst else m.map Prod.fst ++ [k] := by
  unfold dictSet
  by_cases h : (m.lookup k).isSome = true
  · rw [if_pos h, if_pos h, List.map_map, List.map_congr_left]
    intro p _
    show (if p.1 == k then (k, v) else p).1 = p.1
    by_cases hp : (p.1 == k) = true
    · rw [if_pos hp, eq_of_beq hp]
    · rw [if_neg hp]
  · rw [if_neg h, if_neg h, List.map_append]
    rfl

end DictLemmas

section Actions

/-!
`snapshot/builders/action_builder.py`, class `ActionBuilder`.  A
`TopicBuilder` is modelled by the fields the action logic reads: its
name, its `construct_type`, and its publisher/subscriber node-name
lists.  `name_suffix` comes from `_EntityBuilder.__init__`, which stores
the last `/`-token with a leading slash.
-/

/-- The slice of a TopicBuilder's state that `ActionBuilder` reads. -/
structure TopicBuilder where
  name : Str
  constructType : Option Str
  publisherNodeNames : List Str
  subscriberNodeNames : List Str
  deriving DecidableEq

/-- The builder's `name_suffix`, set in `_EntityBuilder.__init__` as
f-string slash followed by the last slash-token of the name. -/
def TopicBuilder.nameSuffix (tb : TopicBuilder) : Str := '/' :: lastToken tb.name

/-- State of an `ActionBuilder`: the two dicts maintained by
`add_topic_builder`. -/
structure ActionBuilder where
  topicNamesToBuilders : List (Str × TopicBuilder)
  topicNameSuffixesToBuilders : List (Str × TopicBuilder)
  deriving DecidableEq

/-- The method `ActionBuilder.add_topic_builder`. -/
def ActionBuilder.addTopicBuilder (ab : ActionBuilder) (tb : TopicBuilder) : ActionBuilder :=
  ⟨dictSet ab.topicNamesToBuilders tb.name tb,
   dictSet ab.topicNameSuffixesToBuilders tb.nameSuffix tb⟩

/-- An `ActionBuilder` populated by adding the given topic builders in
order to a fresh instance. -/
def mkActionBuilder (l : List TopicBuilder) : ActionBuilder :=
  l.foldl ActionBuilder.addTopicBuilder ⟨[], []⟩

/-- Class constant `CLIENT_PUBLISHED_TOPIC_SUFFIXES`. -/
def clientPublishedTopicSuffixes : List Str := ["/cancel".data, "/goal".data]

/-- Class constant `SERVER_PUBLISHED_TOPIC_SUFFIXES`. -/
def serverPublishedTopicSuffixes : List Str :=
  ["/feedback".data, "/result".data, "/status".data]

/-- Class constant `TOPIC_SUFFIXES` (union of the two disjoint suffix
sets). -/
def topicSuffixes : List Str := clientPublishedTopicSuffixes ++ serverPublishedTopicSuffixes

/-- Class constant `NUM_TOPIC_SUFFIXES = len(TOPIC_SUFFIXES)`. -/
def numTopicSuffixes : Nat := topicSuffixes.length

/-- Class constant `CORE_TOPIC_SUFFIXES_TO_TYPE_TOKENS`. -/
def coreTopicSuffixesToTypeTokens : List (Str × Str) :=
  [("/feedback".data, "Feedback".data), ("/goal".data, "Goal".data),
   ("/result".data, "Result".data)]

/-- The static method `_add_or_increment_dictionary_count`. -/
def addOrIncrementDictionaryCount (counts : List (Str × Nat)) (key : Str) :
    List (Str × Nat) :=
  match counts.lookup key with
  | none => counts ++ [(key, 1)]
  | some n => dictSet counts key (n + 1)

/-- One half of `_count_action_node_appearances`: walk the given
suffixes, look each up in `topic_name_suffixes_to_builders` (a missing
suffix raises `KeyError`, modelled as `none`), and count every node name
the projection yields. -/
def countNodesForSuffixes (sufMap : List (Str × TopicBuilder))
    (proj : TopicBuilder → List Str) (counts : List (Str × Nat)) :
    List Str → Option (List (Str × Nat))
  | [] => some counts
  | s :: rest =>
    match sufMap.lookup s with
    | none => none
    | some tb =>
      countNodesForSuffixes sufMap proj
        ((tb |> proj).foldl addOrIncrementDictionaryCount counts) rest

/-- The method `_count_action_node_appearances`: count publisher
appearances over `publisher_suffixes`, then subscriber appearances over
`subscriber_suffixes`, into the same counts dict. -/
def countActionNodeAppearances (sufMap : List (Str × TopicBuilder))
    (publisherSuffixes subscriberSuffixes : List Str)
    (counts : List (Str × Nat)) : Option (List (Str × Nat)) :=
  match countNodesForSuffixes sufMap (fun tb => tb.publisherNodeNames) counts
      publisherSuffixes with
  | none => none
  | some c1 =>
    countNodesForSuffixes sufMap (fun tb => tb.subscriberNodeNames) c1
      subscriberSuffixes

/-- The static method
`_gather_valid_action_node_names_based_on_appearance_counts`: keep
exactly the node names whose appearance count equals
`NUM_TOPIC_SUFFIXES` (nodes with any other count are logged and
dropped). -/
def gatherValidActionNodeNames (counts : List (Str × Nat)) : List Str :=
  (counts.filter (fun p => p.2 == numTopicSuffixes)).map (fun p => p.1)

/-- The classmethod `_validate_topic_builders_have_required_suffixes`:
at least 3 distinct name suffixes, all of them within `TOPIC_SUFFIXES`. -/
def validateTopicBuildersHaveRequiredSuffixes (tbs : List TopicBuilder) : Bool :=
  let found := (tbs.map TopicBuilder.nameSuffix).dedup
  (3 ≤ found.length) && found.all (fun s => topicSuffixes.contains s)

/-- The classmethod `_validate_core_topic_builders_have_required_types`:
every core suffix must be a key of the suffix dict and its builder's
`construct_type` must be non-falsy and end with the matching
`Action<Token>` string. -/
def validateCoreTopicBuildersHaveRequiredTypes
    (sufMap : List (Str × TopicBuilder)) : Bool :=
  coreTopicSuffixesToTypeTokens.all (fun ct =>
    match sufMap.lookup ct.1 with
    | none => false
    | some tb =>
      match tb.constructType with
      | none => false
      | some ty => (ty != ([] : Str)) && ("Action".data ++ ct.2).isSuffixOf ty)

/-- The method `ActionBuilder.validate_action_topic_builders`. -/
def ActionBuilder.validateActionTopicBuilders (ab : ActionBuilder) : Bool :=
  validateTopicBuildersHaveRequiredSuffixes
      (ab.topicNamesToBuilders.map (fun p => p.2))
    && validateCoreTopicBuildersHaveRequiredTypes ab.topicNameSuffixesToBuilders

end Actions

section ActionTheorems

theorem keyval_unique {β : Type} :
    ∀ (m : List (Str × β)), (m.map Prod.fst).Nodup →
      ∀ {k : Str} {v w : β}, (k, v) ∈ m → (k, w) ∈ m → v = w := by
  intro m
  induction m with
  | nil => intro _ k v w h1 _; exact absurd h1 (List.not_mem_nil _)
  | cons p rest ih =>
    obtain ⟨a, b⟩ := p
    intro hnd k v w h1 h2
    rw [List.map_cons, List.nodup_cons] at hnd
    rcases List.mem_cons.mp h1 with h1h | h1t
    · rcases List.mem_cons.mp h2 with h2h | h2t
      · exact ((Prod.ext_iff.mp h1h).2).trans ((Prod.ext_iff.mp h2h).2).symm
      · exfalso
        apply hnd.1
        rw [show (a, b).1 = k from ((Prod.ext_iff.mp h1h).1).symm]
        exact List.mem_map_of_mem Prod.fst h2t
    · rcases List.mem_cons.mp h2 with h2h | h2t
      · exfalso
        apply hnd.1
        rw [show (a, b).1 = k from ((Prod.ext_iff.mp h2h).1).symm]
        exact List.mem_map_of_mem Prod.fst h1t
      · exact ih hnd.2 h1t h2t

/-- C5 counterexample: the node name n publishes on both of the two
suffixes checked for the client role, so its appearance count (2) equals
the total number of suffixes checked for that role, yet
`_gather_valid_action_node_names_based_on_appearance_counts` rejects it:
the code compares counts against `NUM_TOPIC_SUFFIXES` (5), not against
the per-role total the claim states. -/
theorem c5_role_count_threshold_cex :
    countActionNodeAppearances
        [("/cancel".data, ⟨"/a/cancel".data, some "T".data, ["n".data], []⟩),
         ("/goal".data, ⟨"/a/goal".data, some "T".data, ["n".data], []⟩)]
        clientPublishedTopicSuffixes [] []
      = some [("n".data, 2)]
    ∧ clientPublishedTopicSuffixes.length = 2
    ∧ gatherValidActionNodeNames [("n".data, 2)] = [] := by
  refine ⟨by decide, by decide, by decide⟩

/-- C5 (amended): a node is accepted as a valid action client or server
name if and only if its appearance count equals `NUM_TOPIC_SUFFIXES`
(= 5, the total number of known action topic suffixes), regardless of
how many suffixes were actually checked for the role; any other count is
rejected. -/
theorem c5_appearance_count_amended (counts : List (Str × Nat)) (n : Str) (c : Nat)
    (hnd : (counts.map Prod.fst).Nodup) (hmem : (n, c) ∈ counts) :
    numTopicSuffixes = 5
    ∧ (n ∈ gatherValidActionNodeNames counts ↔ c = numTopicSuffixes) := by
  refine ⟨by decide, ?_, ?_⟩
  · intro hin
    unfold gatherValidActionNodeNames at hin
    rcases List.mem_map.mp hin with ⟨⟨n', c'⟩, hp, hfst⟩
    rcases List.mem_filter.mp hp with ⟨hmem', hcnt⟩
    have hc' : c' = numTopicSuffixes := by
      have := of_decide_eq_true (by simpa using hcnt)
      exact this
    have hn' : n' = n := hfst
    rw [hn'] at hmem'
    rw [keyval_unique counts hnd hmem hmem']
    exact hc'
  · intro hc
    unfold gatherValidActionNodeNames
    apply List.mem_map.mpr
    refine ⟨(n, c), List.mem_filter.mpr ⟨hmem, ?_⟩, rfl⟩
    simpa using hc

/-- C5 witness: the amended acceptance test applied at a concrete counts
dict with a full count of 5. -/
theorem c5_appearance_count_amended_witness :
    "n".data ∈ gatherValidActionNodeNames [("n".data, 5)] :=
  (c5_appearance_count_amended [("n".data, 5)] "n".data 5 (by decide)
    (by decide)).2.mpr (by decide)

theorem fold_topicNamesToBuilders :
    ∀ (l : List TopicBuilder) (ab : ActionBuilder),
      (∀ tb ∈ l, ab.topicNamesToBuilders.lookup tb.name = none) →
      ((l.map TopicBuilder.name).Nodup) →
      (l.foldl ActionBuilder.addTopicBuilder ab).topicNamesToBuilders
        = ab.topicNamesToBuilders ++ l.map (fun tb => (tb.name, tb)) := by
  intro l
  induction l with
  | nil => intro ab _ _; simp
  | cons tb rest ih =>
    intro ab habs hnd
    rw [List.map_cons, List.nodup_cons] at hnd
    have h0 : ab.topicNamesToBuilders.lookup tb.name = none :=
      habs tb (List.mem_cons_self _ _)
    have hstep : (ab.addTopicBuilder tb).topicNamesToBuilders
        = ab.topicNamesToBuilders ++ [(tb.name, tb)] := by
      unfold ActionBuilder.addTopicBuilder
      exact dictSet_absent _ _ _ h0
    rw [List.foldl_cons,
      ih (ab.addTopicBuilder tb)
        (by
          intro tb' htb'
          rw [hstep, lookup_append_left_none _ _ _ (habs tb' (List.mem_cons_of_mem _ htb'))]
          have hne : (tb'.name == tb.name) = false := by
            rcases hq : (tb'.name == tb.name) with _ | _
            · rfl
            · exact absurd (eq_of_beq hq ▸ List.mem_map_of_mem TopicBuilder.name htb')
                hnd.1
          rw [List.lookup_cons, hne]
          exact List.lookup_nil)
        hnd.2,
      hstep, List.map_cons, List.append_assoc]
    rfl

theorem fold_topicSuffixesToBuilders :
    ∀ (l : List TopicBuilder) (ab : ActionBuilder),
      (∀ tb ∈ l, ab.topicNameSuffixesToBuilders.lookup tb.nameSuffix = none) →
      ((l.map TopicBuilder.nameSuffix).Nodup) →
      (l.foldl ActionBuilder.addTopicBuilder ab).topicNameSuffixesToBuilders
        = ab.topicNameSuffixesToBuilders ++ l.map (fun tb => (tb.nameSuffix, tb)) := by
  intro l
  induction l with
  | nil => intro ab _ _; simp
  | cons tb rest ih =>
    intro ab habs hnd
    rw [List.map_cons, List.nodup_cons] at hnd
    have h0 : ab.topicNameSuffixesToBuilders.lookup tb.nameSuffix = none :=
      habs tb (List.mem_cons_self _ _)
    have hstep : (ab.addTopicBuilder tb).topicNameSuffixesToBuilders
        = ab.topicNameSuffixesToBuilders ++ [(tb.nameSuffix, tb)] := by
      unfold ActionBuilder.addTopicBuilder
      exact dictSet_absent _ _ _ h0
    rw [List.foldl_cons,
      ih (ab.addTopicBuilder tb)
        (by
          intro tb' htb'
          rw [hstep, lookup_append_left_none _ _ _ (habs tb' (List.mem_cons_of_mem _ htb'))]
          have hne : (tb'.nameSuffix == tb.nameSuffix) = false := by
            rcases hq : (tb'.nameSuffix == tb.nameSuffix) with _ | _
            · rfl
            · exact absurd
                (eq_of_beq hq ▸ List.mem_map_of_mem TopicBuilder.nameSuffix htb')
                hnd.1
          rw [List.lookup_cons, hne]
          exact List.lookup_nil)
        hnd.2,
      hstep, List.map_cons, List.append_assoc]
    rfl

theorem lookup_map_pair (f : TopicBuilder → Str) :
    ∀ (l : List TopicBuilder), ((l.map f).Nodup) →
      ∀ (s : Str) (tb : TopicBuilder),
        ((l.map (fun tb => (f tb, tb))).lookup s = some tb ↔ (tb ∈ l ∧ f tb = s)) := by
  intro l
  induction l with
  | nil =>
    intro _ s tb
    simp [List.lookup_nil]
  | cons hd rest ih =>
    intro hnd s tb
    rw [List.map_cons, List.nodup_cons] at hnd
    rw [List.map_cons, List.lookup_cons]
    rcases hq : (s == f hd) with _ | _
    · rw [ih hnd.2 s tb]
      constructor
      · rintro ⟨hmem, hfs⟩
        exact ⟨List.mem_cons_of_mem _ hmem, hfs⟩
      · rintro ⟨hmem, hfs⟩
        rcases List.mem_cons.mp hmem with hh | ht
        · exfalso
          have hsfh : s = f hd := by rw [← hfs, hh]
          rw [hsfh] at hq
          simp at hq
        · exact ⟨ht, hfs⟩
    · have hseq : s = f hd := eq_of_beq hq
      constructor
      · intro hsome
        have : hd = tb := Option.some.inj hsome
        exact ⟨this ▸ List.mem_cons_self _ _, by rw [← this, hseq]⟩
      · rintro ⟨hmem, hfs⟩
        rcases List.mem_cons.mp hmem with hh | ht
        · rw [hh]
        · exfalso
          apply hnd.1
          rw [← hseq, ← hfs]
          exact List.mem_map_of_mem f ht

theorem coreTypeCheck_iff (m : List (Str × TopicBuilder)) (s tok : Str) :
    ((match m.lookup s with
      | none => false
      | some tb =>
        match tb.constructType with
        | none => false
        | some ty => (ty != ([] : Str)) && ("Action".data ++ tok).isSuffixOf ty) = true)
    ↔ ∃ tb, m.lookup s = some tb
        ∧ ∃ ty, tb.constructType = some ty ∧ ty ≠ []
          ∧ ("Action".data ++ tok).isSuffixOf ty = true := by
  cases hl : m.lookup s with
  | none => simp
  | some tb =>
    have hiff : ((match tb.constructType with
        | none => false
        | some ty => (ty != ([] : Str)) && ("Action".data ++ tok).isSuffixOf ty) = true)
        ↔ ∃ tb' : TopicBuilder, some tb = some tb'
            ∧ ∃ ty, tb'.constructType = some ty ∧ ty ≠ []
              ∧ ("Action".data ++ tok).isSuffixOf ty = true := by
      cases hc : tb.constructType with
      | none => simp [hc]
      | some ty =>
        constructor
        · intro h
          rw [Bool.and_eq_true] at h
          rcases h with ⟨h1, h2⟩
          exact ⟨tb, rfl, ty, hc, bne_iff_ne.mp h1, h2⟩
        · rintro ⟨tb', htb', ty', hty', hne, hsuf⟩
          have h1 : tb = tb' := Option.some.inj htb'
          rw [← h1, hc] at hty'
          have h2 : ty = ty' := Option.some.inj hty'
          rw [← h2] at hne hsuf
          rw [Bool.and_eq_true]
          exact ⟨bne_iff_ne.mpr hne, hsuf⟩
    exact hiff

/-- C6: validate_action_topic_builders accepts an Action candidate (with
distinctly named, distinctly suffixed constituent topic builders) if and
only if the builders collectively expose at least 3 distinct name
suffixes, every found suffix lies within the known set of 5, and each of
the three core suffixes is present on a builder whose topic type string
ends in ActionFeedback / ActionGoal / ActionResult respectively; in
particular an Action exposing only 2 suffixes fails the first test and
is rejected. -/
theorem c6_validate_action_topic_builders_iff (l : List TopicBuilder)
    (hn : (l.map TopicBuilder.name).Nodup)
    (hs : (l.map TopicBuilder.nameSuffix).Nodup) :
    (mkActionBuilder l).validateActionTopicBuilders = true ↔
      (3 ≤ ((l.map TopicBuilder.nameSuffix).dedup).length
       ∧ (∀ tb ∈ l, tb.nameSuffix ∈ topicSuffixes)
       ∧ ∀ ct ∈ coreTopicSuffixesToTypeTokens,
           ∃ tb ∈ l, tb.nameSuffix = ct.1
             ∧ ∃ ty, tb.constructType = some ty ∧ ty ≠ []
               ∧ ("Action".data ++ ct.2).isSuffixOf ty = true) := by
  have hnames := fold_topicNamesToBuilders l ⟨[], []⟩ (fun _ _ => List.lookup_nil) hn
  have hsufm := fold_topicSuffixesToBuilders l ⟨[], []⟩ (fun _ _ => List.lookup_nil) hs
  unfold mkActionBuilder ActionBuilder.validateActionTopicBuilders
  rw [hnames, hsufm]
  simp only [List.nil_append]
  rw [Bool.and_eq_true]
  have hproj : (l.map (fun tb => (tb.name, tb))).map (fun p => p.2) = l := by
    rw [List.map_map]
    exact List.map_id l
  rw [hproj]
  have hAiff : (validateTopicBuildersHaveRequiredSuffixes l = true)
      ↔ (3 ≤ ((l.map TopicBuilder.nameSuffix).dedup).length
         ∧ ∀ tb ∈ l, tb.nameSuffix ∈ topicSuffixes) := by
    change ((decide (3 ≤ ((l.map TopicBuilder.nameSuffix).dedup).length))
        && ((l.map TopicBuilder.nameSuffix).dedup).all
             (fun s => topicSuffixes.contains s)) = true ↔ _
    rw [Bool.and_eq_true]
    apply and_congr
    · exact decide_eq_true_iff
    · rw [List.all_eq_true]
      constructor
      · intro h tb htb
        exact List.elem_iff.mp
          (h tb.nameSuffix (List.mem_dedup.mpr (List.mem_map_of_mem _ htb)))
      · intro h s hsmem
        rcases List.mem_map.mp (List.mem_dedup.mp hsmem) with ⟨tb, htb, hrw⟩
        rw [← hrw]
        exact List.elem_iff.mpr (h tb htb)
  have hBiff : (validateCoreTopicBuildersHaveRequiredTypes
        (l.map (fun tb => (tb.nameSuffix, tb))) = true)
      ↔ ∀ ct ∈ coreTopicSuffixesToTypeTokens,
          ∃ tb ∈ l, tb.nameSuffix = ct.1
            ∧ ∃ ty, tb.constructType = some ty ∧ ty ≠ []
              ∧ ("Action".data ++ ct.2).isSuffixOf ty = true := by
    unfold validateCoreTopicBuildersHaveRequiredTypes
    rw [List.all_eq_true]
    apply forall_congr'
    intro ct
    apply imp_congr_right
    intro _
    rw [coreTypeCheck_iff]
    constructor
    · rintro ⟨tb, hlk, hrest⟩
      rcases (lookup_map_pair TopicBuilder.nameSuffix l hs ct.1 tb).mp hlk with ⟨hmem, hsfx⟩
      exact ⟨tb, hmem, hsfx, hrest⟩
    · rintro ⟨tb, hmem, hsfx, hrest⟩
      exact ⟨tb, (lookup_map_pair TopicBuilder.nameSuffix l hs ct.1 tb).mpr
        ⟨hmem, hsfx⟩, hrest⟩
  rw [hAiff, hBiff, and_assoc]

/-- C6 witness: the five canonical suffixed topics of one action, with
correctly suffixed types, are accepted. -/
theorem c6_validate_action_topic_builders_iff_witness :
    (mkActionBuilder
      [⟨"/fib/goal".data, some "FibActionGoal".data, ["c".data], ["s".data]⟩,
       ⟨"/fib/cancel".data, some "GoalID".data, ["c".data], ["s".data]⟩,
       ⟨"/fib/feedback".data, some "FibActionFeedback".data, ["s".data], ["c".data]⟩,
       ⟨"/fib/result".data, some "FibActionResult".data, ["s".data], ["c".data]⟩,
       ⟨"/fib/status".data, some "GoalStatusArray".data, ["s".data], ["c".data]⟩]
      ).validateActionTopicBuilders = true :=
  (c6_validate_action_topic_builders_iff _ (by decide) (by decide)).mpr (by decide)

end ActionTheorems

section NodePid

/-!
`snapshot/builders/node_builder.py`, method `NodeBuilder.get_node_pid`.
The process snapshot is the insertion-ordered list of graph-like process
records (`NodeBuilder.__processes.values()`); pids are unique.  The
function both returns the chosen pid and mutates the chosen record's
`assigned` marker, so it is modelled as state passing.
-/

/-- One record of the graph-like process snapshot. -/
structure Proc where
  pid : Nat
  ppid : Nat
  name : Str
  cmdline : List Str
  assigned : Option Str
  deriving DecidableEq

/-- The namespace test for one command-line word: an embedded
namespace-remap token (substring test on the whole word). -/
def nsTokenMatch (ns cmd : Str) : Bool := pyIn ("__ns:=".data ++ ns) cmd

/-- The token-overlap heuristic for one command-line word: split the
node name and the word's last path segment on underscore; at least half
of each token list must appear (as a substring) in the other side. -/
def namePartsMatch (nodeName cmd : Str) : Bool :=
  let lastCmd := lastPathSeg cmd
  let nodeParts := pySplit '_' nodeName
  let cmdParts := pySplit '_' lastCmd
  decide (nodeParts.length ≤ 2 * (nodeParts.filter (fun s => pyIn s lastCmd)).length)
    && decide (cmdParts.length ≤ 2 * (cmdParts.filter (fun s => pyIn s nodeName)).length)

/-- Initial values of found_ns / found_name before the command-line
loop: root namespace, and exact process-name equality. -/
def candInit (ns nodeName : Str) (p : Proc) : Bool × Bool :=
  (ns == "/".data, p.name == nodeName)

/-- One iteration of the command-line loop of get_node_pid. -/
def candStep (ns nodeName : Str) (st : Bool × Bool) (cmd : Str) : Bool × Bool :=
  let foundNs := st.1 || nsTokenMatch ns cmd
  let foundName :=
    if pyIn nodeName (lastPathSeg cmd) then true
    else if namePartsMatch nodeName cmd then true
    else st.2
  (foundNs, foundName)

/-- The candidate filter of get_node_pid: processes with an empty (or
non-list) command line are skipped; the loop body only runs when the
initial tests do not already both hold. -/
def isCandidate (ns nodeName : Str) (p : Proc) : Bool :=
  match p.cmdline with
  | [] => false
  | _ :: _ =>
    let init := candInit ns nodeName p
    if !init.1 || !init.2 then
      let fin := p.cmdline.foldl (candStep ns nodeName) init
      fin.1 && fin.2
    else true

/-- The logical name recorded into the `assigned` marker. -/
def assignedName (ns nodeName : Str) : Str :=
  if ns == "/".data then nodeName else ns ++ "/".data ++ nodeName

/-- Survivors of the multiple-candidate pruning: remove every candidate
that is the parent (by ppid) of another candidate, then remove every
candidate whose `assigned` marker is already set. -/
def survivors (possible : List Proc) : List Proc :=
  let pids := possible.map (fun p => p.pid)
  let parentsToRemove :=
    (possible.filter (fun p => pids.contains p.ppid)).map (fun p => p.ppid)
  (possible.filter (fun p => !(parentsToRemove.contains p.pid))).filter
    (fun p => p.assigned.isNone)

/-- Selection among the candidates: a unique candidate is taken
directly; otherwise the pruned survivors decide — zero fails, several
fail unless `guess` (which takes the first in snapshot order). -/
def chooseProc (possible : List Proc) (guess : Bool) : Option Proc :=
  if possible.length == 1 then possible.head?
  else
    let s := survivors possible
    if s.isEmpty then Option.none
    else if s.length != 1 && !guess then Option.none
    else s.head?

/-- Marking the selected process `assigned` (comma-joined when the
process already hosts another logical node). -/
def applyAssign (procs : List Proc) (ns nodeName : Str) (sel : Proc) : List Proc :=
  let newAssigned :=
    match sel.assigned with
    | Option.none => assignedName ns nodeName
    | some a => a ++ ",".data ++ assignedName ns nodeName
  procs.map (fun p =>
    if p.pid == sel.pid then { p with assigned := some newAssigned } else p)

/-- The method `NodeBuilder.get_node_pid(namespace, node_name, guess)`:
candidate filtering, selection and assignment marking, returning the
chosen pid (or None) together with the updated process snapshot. -/
def getNodePid (procs : List Proc) (ns nodeName : Str) (guess : Bool) :
    Option Nat × List Proc :=
  let possible := procs.filter (isCandidate ns nodeName)
  if possible.isEmpty then (Option.none, procs)
  else
    match chooseProc possible guess with
    | Option.none => (Option.none, procs)
    | some sel => (some sel.pid, applyAssign procs ns nodeName sel)

end NodePid

section NodePidTheorems

theorem candStep_eq (ns nodeName : Str) (st : Bool × Bool) (cmd : Str) :
    candStep ns nodeName st cmd
      = (st.1 || nsTokenMatch ns cmd,
         st.2 || (pyIn nodeName (lastPathSeg cmd) || namePartsMatch nodeName cmd)) := by
  unfold candStep
  by_cases h1 : pyIn nodeName (lastPathSeg cmd) = true <;>
    by_cases h2 : namePartsMatch nodeName cmd = true <;>
      simp [h1, h2]

theorem foldl_candStep (ns nodeName : Str) :
    ∀ (l : List Str) (a b : Bool),
      l.foldl (candStep ns nodeName) (a, b)
        = (a || l.any (fun cmd => nsTokenMatch ns cmd),
           b || l.any (fun cmd =>
             pyIn nodeName (lastPathSeg cmd) || namePartsMatch nodeName cmd)) := by
  intro l
  induction l with
  | nil => intro a b; simp
  | cons c rest ih =>
    intro a b
    rw [List.foldl_cons, candStep_eq, ih]
    simp [Bool.or_assoc]

/-- C4: a process with a nonempty command line is a get_node_pid
candidate if and only if (an embedded namespace-remap token appears in
some command-line word OR the namespace is the root) AND (the process
name equals the node name OR the node name appears inside the last path
segment of some command-line word OR the underscore token-overlap
heuristic matches some word). -/
theorem c4_candidate_characterization (ns nodeName : Str) (p : Proc)
    (hcmd : p.cmdline ≠ []) :
    isCandidate ns nodeName p = true ↔
      ((ns = "/".data ∨ ∃ cmd ∈ p.cmdline, nsTokenMatch ns cmd = true)
       ∧ (p.name = nodeName
          ∨ ∃ cmd ∈ p.cmdline,
              pyIn nodeName (lastPathSeg cmd) = true
              ∨ namePartsMatch nodeName cmd = true)) := by
  have heq : isCandidate ns nodeName p
      = (((ns == "/".data) || p.cmdline.any (fun cmd => nsTokenMatch ns cmd))
         && ((p.name == nodeName) || p.cmdline.any (fun cmd =>
              pyIn nodeName (lastPathSeg cmd) || namePartsMatch nodeName cmd))) := by
    unfold isCandidate candInit
    cases hc : p.cmdline with
    | nil => exact absurd hc hcmd
    | cons c rest =>
      simp only
      by_cases h1 : (!(ns == "/".data) || !(p.name == nodeName)) = true
      · rw [if_pos h1, foldl_candStep]
      · rw [if_neg h1]
        have h1' : (!(ns == "/".data) || !(p.name == nodeName)) = false := by
          cases hx : (!(ns == "/".data) || !(p.name == nodeName)) with
          | false => rfl
          | true => exact absurd hx h1
        rcases Bool.or_eq_false_iff.mp h1' with ⟨ha, hb⟩
        rw [Bool.not_eq_false'] at ha hb
        rw [ha, hb]
        simp
  rw [heq]
  simp [Bool.and_eq_true, Bool.or_eq_true, List.any_eq_true, beq_iff_eq]

/-- C4 witness: the candidate characterization applied at a concrete
matching process. -/
theorem c4_candidate_characterization_witness :
    isCandidate "/".data "talker".data
      ⟨1, 0, "talker".data, ["talker".data], Option.none⟩ = true :=
  (c4_candidate_characterization "/".data "talker".data
    ⟨1, 0, "talker".data, ["talker".data], Option.none⟩
    (by decide)).mpr ⟨Or.inl rfl, Or.inl rfl⟩

/-- C3 counterexample: a process already assigned to the different
logical node other is the sole candidate for talker and is selected
anyway (its marker becomes a comma join), so get_node_pid does select a
process already assigned to a different logical node. -/
theorem c3_sole_assigned_candidate_reselected_cex :
    (getNodePid [⟨1, 0, "talker".data, ["talker".data], some "other".data⟩]
        "/".data "talker".data false).1 = some 1
    ∧ (getNodePid [⟨1, 0, "talker".data, ["talker".data], some "other".data⟩]
        "/".data "talker".data false).2
      = [⟨1, 0, "talker".data, ["talker".data], some "other,talker".data⟩]
    ∧ "other".data ≠ "talker".data := by
  refine ⟨by decide, by decide, by decide⟩

/-- C3 (amended): for a fixed process snapshot the result is a pure
function of the inputs, hence deterministic; when more than one
candidate matches, a previously assigned process is never selected; but
a unique candidate is selected even if already assigned to a different
logical node (the new node is comma-appended to its marker). -/
theorem c3_get_node_pid_amended :
    (∀ (procs : List Proc) (ns nodeName : Str),
       getNodePid procs ns nodeName false = getNodePid procs ns nodeName false)
    ∧ (∀ (procs : List Proc) (ns nodeName : Str) (guess : Bool) (pid : Nat),
        2 ≤ (procs.filter (isCandidate ns nodeName)).length →
        (getNodePid procs ns nodeName guess).1 = some pid →
        ∃ p ∈ procs, p.pid = pid ∧ p.assigned = Option.none)
    ∧ (∀ (procs : List Proc) (ns nodeName : Str) (guess : Bool) (p : Proc),
        procs.filter (isCandidate ns nodeName) = [p] →
        (getNodePid procs ns nodeName guess).1 = some p.pid) := by
  refine ⟨fun _ _ _ => rfl, ?_, ?_⟩
  · intro procs ns nodeName guess pid hlen hpid
    unfold getNodePid at hpid
    simp only at hpid
    have hne : (procs.filter (isCandidate ns nodeName)).isEmpty = false := by
      cases hf : procs.filter (isCandidate ns nodeName) with
      | nil => rw [hf] at hlen; exact absurd hlen (by decide)
      | cons q rest => rfl
    rw [if_neg (by rw [hne]; exact Bool.noConfusion)] at hpid
    have hlen1 : ((procs.filter (isCandidate ns nodeName)).length == 1) = false := by
      rcases hq : ((procs.filter (isCandidate ns nodeName)).length == 1) with _ | _
      · rfl
      · have hq' : (procs.filter (isCandidate ns nodeName)).length = 1 := eq_of_beq hq
        rw [hq'] at hlen
        exact absurd hlen (by decide)
    cases hch : chooseProc (procs.filter (isCandidate ns nodeName)) guess with
    | none =>
      rw [hch] at hpid
      exact Option.noConfusion hpid
    | some sel =>
      rw [hch] at hpid
      have hsel : sel ∈ survivors (procs.filter (isCandidate ns nodeName)) := by
        unfold chooseProc at hch
        rw [if_neg (by rw [hlen1]; exact Bool.noConfusion)] at hch
        by_cases he : (survivors (procs.filter (isCandidate ns nodeName))).isEmpty = true
        · rw [if_pos he] at hch
          exact Option.noConfusion hch
        · rw [if_neg he] at hch
          by_cases hg : ((survivors (procs.filter (isCandidate ns nodeName))).length != 1
              && !guess) = true
          · rw [if_pos hg] at hch
            exact Option.noConfusion hch
          · rw [if_neg hg] at hch
            cases hs : survivors (procs.filter (isCandidate ns nodeName)) with
            | nil =>
              rw [hs] at hch
              exact Option.noConfusion hch
            | cons q rest =>
              rw [hs] at hch
              have : q = sel := Option.some.inj hch
              rw [← this]
              exact List.mem_cons_self _ _
      unfold survivors at hsel
      simp only at hsel
      rcases List.mem_filter.mp hsel with ⟨hsel2, hassigned⟩
      rcases List.mem_filter.mp hsel2 with ⟨hsel3, _⟩
      rcases List.mem_filter.mp hsel3 with ⟨hmem, _⟩
      refine ⟨sel, hmem, ?_, ?_⟩
      · exact Option.some.inj hpid
      · exact Option.isNone_iff_eq_none.mp hassigned
  · intro procs ns nodeName guess p hfilter
    unfold getNodePid
    simp only
    rw [hfilter]
    rw [if_neg (by exact Bool.noConfusion)]
    unfold chooseProc
    rw [if_pos (by rfl)]
    rfl

/-- C3 witness: the amended selection rules applied at concrete
snapshots — two unassigned candidates (guess) and one sole candidate. -/
theorem c3_get_node_pid_amended_witness :
    (∃ p ∈ [(⟨1, 0, "t".data, ["t".data], Option.none⟩ : Proc),
            ⟨2, 0, "t".data, ["t".data], Option.none⟩],
       p.pid = 1 ∧ p.assigned = Option.none)
    ∧ (getNodePid [(⟨1, 0, "t".data, ["t".data], Option.none⟩ : Proc)]
        "/".data "t".data false).1 = some 1 :=
  ⟨c3_get_node_pid_amended.2.1
      [⟨1, 0, "t".data, ["t".data], Option.none⟩,
       ⟨2, 0, "t".data, ["t".data], Option.none⟩]
      "/".data "t".data true 1 (by decide) (by decide),
   c3_get_node_pid_amended.2.2
      [⟨1, 0, "t".data, ["t".data], Option.none⟩] "/".data "t".data false
      ⟨1, 0, "t".data, ["t".data], Option.none⟩ (by decide)⟩

end NodePidTheorems

section SpecificationReconciler

/-!
`snapshot/snapshot.py`: `_match_token_types`, `_validate_node_builder`,
`_update_node_specification_data` and `_update_node_specification`.
Specification category maps carry `Option Str` values because a learned
specification can store a builder's `construct_type` of None.  Bank
builders enter only through `builder.construct_type`, modelled as a
name-to-type function per bank.  Python dict iteration in
`sorted(io_names)` / `sorted(builder_data)` is `pySorted`.
-/

/-- Generic Python `d.update(d2)` on string-keyed dicts. -/
def dictUpdateG {β : Type} (d d2 : List (Str × β)) : List (Str × β) :=
  d2.foldl (fun acc kv => dictSet acc kv.1 kv.2) d

/-- One iteration of the `_match_token_types` loop: state is the
remaining `available_tokens` (in insertion order of the spec map) and
`io_is_valid`.  The direct hit consumes the trailing token; otherwise
the substring candidates (`potential`) are tried in sorted order by type
match, then the other remaining tokens (`remaining`), and an unmatched
item clears the valid flag. -/
def matchStep (ioTypes : Str → Option Str) (st : List (Str × Option Str))
    (acc : List Str × Bool) (ioName : Str) : List Str × Bool :=
  if acc.1.contains (lastToken ioName)
      && ((st.lookup (lastToken ioName)).getD Option.none == ioTypes ioName) then
    (acc.1.erase (lastToken ioName), acc.2)
  else
    match (pySorted (acc.1.filter (fun ss => pyIn (lastToken ioName) ss))).find?
        (fun t => (st.lookup t).getD Option.none == ioTypes ioName) with
    | some t => (acc.1.erase t, acc.2)
    | Option.none =>
      match (pySorted (acc.1.filter (fun ss => !(pyIn (lastToken ioName) ss)))).find?
          (fun t => (st.lookup t).getD Option.none == ioTypes ioName) with
      | some t => (acc.1.erase t, acc.2)
      | Option.none => (acc.1, false)

/-- The static method `_match_token_types`: a None specification
category returns False when items were observed and falls through
(Python None) otherwise; a present category walks the sorted observed
names against the available spec tokens. -/
def matchTokenTypes (ioNames : List Str) (ioTypes : Str → Option Str)
    (specTypes : Option (List (Str × Option Str))) : Option Bool :=
  match specTypes with
  | Option.none => if 0 < ioNames.length then some false else Option.none
  | some st =>
    some ((pySorted ioNames).foldl (matchStep ioTypes st)
      (st.map (fun p => p.1), true)).2

/-- The seven token-match calls of `_validate_node_builder`, in source
order (the parameters category is processed twice). -/
inductive IoCat where
  | params1
  | params2
  | actClients
  | actServers
  | pubTopics
  | subTopics
  | services
  deriving DecidableEq

/-- The I/O lists a NodeBuilder exposes to validation. -/
structure NodeData where
  parameterNames : List Str
  actionClients : List Str
  actionServers : List Str
  publishedTopicNames : List Str
  subscribedTopicNames : List Str
  serviceNamesWithRemap : List Str
  deriving DecidableEq

/-- The category maps and validated flag of a NodeSpecification (None
models a field never populated). -/
structure NodeSpec where
  parameters : Option (List (Str × Option Str))
  actionClients : Option (List (Str × Option Str))
  actionServers : Option (List (Str × Option Str))
  publishedTopics : Option (List (Str × Option Str))
  subscribedTopics : Option (List (Str × Option Str))
  servicesProvided : Option (List (Str × Option Str))
  validated : Bool
  deriving DecidableEq

/-- The construct_type lookups of the four bank builders used during
validation and learning. -/
structure BankTypes where
  paramTypes : Str → Option Str
  actionTypes : Str → Option Str
  topicTypes : Str → Option Str
  serviceTypes : Str → Option Str

/-- Observed names per category. -/
def catNames (nb : NodeData) : IoCat → List Str
  | IoCat.params1 => nb.parameterNames
  | IoCat.params2 => nb.parameterNames
  | IoCat.actClients => nb.actionClients
  | IoCat.actServers => nb.actionServers
  | IoCat.pubTopics => nb.publishedTopicNames
  | IoCat.subTopics => nb.subscribedTopicNames
  | IoCat.services => nb.serviceNamesWithRemap

/-- Bank type lookup per category. -/
def catTypes (bt : BankTypes) : IoCat → (Str → Option Str)
  | IoCat.params1 => bt.paramTypes
  | IoCat.params2 => bt.paramTypes
  | IoCat.actClients => bt.actionTypes
  | IoCat.actServers => bt.actionTypes
  | IoCat.pubTopics => bt.topicTypes
  | IoCat.subTopics => bt.topicTypes
  | IoCat.services => bt.serviceTypes

/-- Specification map per category. -/
def catSpec (spec : NodeSpec) : IoCat → Option (List (Str × Option Str))
  | IoCat.params1 => spec.parameters
  | IoCat.params2 => spec.parameters
  | IoCat.actClients => spec.actionClients
  | IoCat.actServers => spec.actionServers
  | IoCat.pubTopics => spec.publishedTopics
  | IoCat.subTopics => spec.subscribedTopics
  | IoCat.services => spec.servicesProvided

/-- One category's token match inside `_validate_node_builder`. -/
def matchFor (nb : NodeData) (bt : BankTypes) (spec : NodeSpec) (c : IoCat) :
    Option Bool :=
  matchTokenTypes (catNames nb c) (catTypes bt c) (catSpec spec c)

/-- Python truthiness of the running node_is_valid value (True, False or
None). -/
def truthy (v : Option Bool) : Bool := v == some true

/-- The chain `node_is_valid = node_is_valid and match(...)` over the
category list, recording which categories were actually token-matched:
after a falsy value the remaining calls are skipped. -/
def chainTrace (f : IoCat → Option Bool) : Option Bool → List IoCat →
    Option Bool × List IoCat
  | v, [] => (v, [])
  | v, c :: cs =>
    if truthy v then
      let r := chainTrace f (f c) cs
      (r.1, c :: r.2)
    else (v, [])

/-- Source order of the seven match calls. -/
def catOrder : List IoCat :=
  [IoCat.params1, IoCat.params2, IoCat.actClients, IoCat.actServers,
   IoCat.pubTopics, IoCat.subTopics, IoCat.services]

/-- The method `_validate_node_builder`: the duplicated parameter-count
pre-checks (len of a None parameters field raises, a fatal exit, hence
`Except.error`), then the and-chain of the seven category matches.
Returns the final truthiness value and the categories matched. -/
def validateNodeBuilder (nb : NodeData) (bt : BankTypes) (spec : NodeSpec) :
    Except Unit (Option Bool × List IoCat) :=
  match spec.parameters with
  | Option.none => Except.error ()
  | some ps =>
    let v0 : Option Bool := some (!(decide (ps.length < nb.parameterNames.length)))
    Except.ok (chainTrace (matchFor nb bt spec) v0 catOrder)

/-- One iteration of `_update_node_specification_data`: record the
observed name's trailing token and its builder's construct_type,
suffixing a collision with the incremented counter.  A collision whose
counter entry is missing (a token introduced as a suffixed key earlier
in the same pass) raises `KeyError` in Python, modelled as error. -/
def updStep (itemTypes : Str → Option Str)
    (acc : List (Str × Option Str) × List (Str × Nat)) (name : Str) :
    Except Unit (List (Str × Option Str) × List (Str × Nat)) :=
  let sd := acc.1
  let tm := acc.2
  let specType := itemTypes name
  let token := lastToken name
  if (sd.lookup token).isSome then
    match tm.lookup token with
    | Option.none => Except.error ()
    | some cnt =>
      Except.ok
        (dictSet sd (token ++ '_' :: Nat.toDigits 10 (cnt + 1)) specType,
         dictSet tm token (cnt + 1))
  else
    Except.ok (dictSet sd token specType, dictSet tm token 0)

/-- The loop of `_update_node_specification_data` over the sorted
builder names. -/
def updFold (itemTypes : Str → Option Str) :
    List Str → (List (Str × Option Str) × List (Str × Nat)) →
      Except Unit (List (Str × Option Str) × List (Str × Nat))
  | [], st => Except.ok st
  | n :: rest, st =>
    match updStep itemTypes st n with
    | Except.error _ => Except.error ()
    | Except.ok st' => updFold itemTypes rest st'

/-- The static method `_update_node_specification_data`: the counter map
starts at 0 for every existing spec key, then the sorted observed names
are recorded. -/
def updateNodeSpecificationData (specData : List (Str × Option Str))
    (builderData : List Str) (itemTypes : Str → Option Str) :
    Except Unit (List (Str × Option Str)) :=
  match updFold itemTypes (pySorted builderData)
      (specData, specData.map (fun p => (p.1, (0 : Nat)))) with
  | Except.error _ => Except.error ()
  | Except.ok st => Except.ok st.1

/-- The method `_update_node_specification`.  The parameters category is
processed twice: with a None field the two passes fill two fresh dicts
which are then merged by `parameters.update(set_parameters)`; with a
present field both passes mutate the same aliased dict, so the second
pass runs on the first pass's result and the final update is a no-op.
The closing `update_attributes(validated=True, parameters=..., ...)`
call sets each category field to the computed dict (a None field is set
directly; a non-None field is the already-mutated object, an identical
value no-op) and sets validated True; that net effect is inlined
here. -/
def updateNodeSpecification (spec : NodeSpec) (nb : NodeData) (bt : BankTypes) :
    Except Unit NodeSpec := do
  let params ← (match spec.parameters with
    | Option.none => do
      let p1 ← updateNodeSpecificationData [] nb.parameterNames bt.paramTypes
      let p2 ← updateNodeSpecificationData [] nb.parameterNames bt.paramTypes
      pure (dictUpdateG p1 p2)
    | some d => do
      let p1 ← updateNodeSpecificationData d nb.parameterNames bt.paramTypes
      let p2 ← updateNodeSpecificationData p1 nb.parameterNames bt.paramTypes
      pure p2)
  let ac ← updateNodeSpecificationData (spec.actionClients.getD [])
    nb.actionClients bt.actionTypes
  let acts ← updateNodeSpecificationData (spec.actionServers.getD [])
    nb.actionServers bt.actionTypes
  let pt ← updateNodeSpecificationData (spec.publishedTopics.getD [])
    nb.publishedTopicNames bt.topicTypes
  let sbt ← updateNodeSpecificationData (spec.subscribedTopics.getD [])
    nb.subscribedTopicNames bt.topicTypes
  let sp ← updateNodeSpecificationData (spec.servicesProvided.getD [])
    nb.serviceNamesWithRemap bt.serviceTypes
  pure { spec with
    parameters := some params
    actionClients := some ac
    actionServers := some acts
    publishedTopics := some pt
    subscribedTopics := some sbt
    servicesProvided := some sp
    validated := true }

end SpecificationReconciler

section ReconcilerTheorems

theorem mem_pyInsert (x y : Str) :
    ∀ (l : List Str), x ∈ pyInsert y l ↔ (x = y ∨ x ∈ l) := by
  intro l
  induction l with
  | nil => simp [pyInsert]
  | cons z zs ih =>
    unfold pyInsert
    by_cases h : pyStrLt z y = true
    · rw [if_pos h]
      rw [List.mem_cons, ih, List.mem_cons]
      tauto
    · rw [if_neg h]
      simp [List.mem_cons]

theorem mem_pySorted (x : Str) :
    ∀ (l : List Str), x ∈ pySorted l ↔ x ∈ l := by
  intro l
  induction l with
  | nil => simp [pySorted]
  | cons y ys ih =>
    show x ∈ pyInsert y (pySorted ys) ↔ _
    rw [mem_pyInsert, ih, List.mem_cons]

theorem length_pyInsert (y : Str) :
    ∀ (l : List Str), (pyInsert y l).length = l.length + 1 := by
  intro l
  induction l with
  | nil => rfl
  | cons z zs ih =>
    unfold pyInsert
    by_cases h : pyStrLt z y = true
    · rw [if_pos h, List.length_cons, ih, List.length_cons]
    · rw [if_neg h]
      rfl

theorem length_pySorted :
    ∀ (l : List Str), (pySorted l).length = l.length := by
  intro l
  induction l with
  | nil => rfl
  | cons y ys ih =>
    show (pyInsert y (pySorted ys)).length = _
    rw [length_pyInsert, ih, List.length_cons]

theorem matchStep_sound (ioTypes : Str → Option Str) (st : List (Str × Option Str))
    (acc : List Str × Bool) (io : Str)
    (h : (matchStep ioTypes st acc io).2 = true) :
    acc.2 = true ∧ (matchStep ioTypes st acc io).1.length + 1 = acc.1.length := by
  unfold matchStep at h ⊢
  by_cases hdir : (acc.1.contains (lastToken io)
      && ((st.lookup (lastToken io)).getD Option.none == ioTypes io)) = true
  · rw [if_pos hdir] at h ⊢
    refine ⟨h, ?_⟩
    have hmem : lastToken io ∈ acc.1 :=
      List.elem_iff.mp (Bool.and_eq_true _ _ ▸ hdir).1
    rw [List.length_erase_of_mem hmem]
    have : 1 ≤ acc.1.length := List.length_pos.mpr (List.ne_nil_of_mem hmem)
    omega
  · rw [if_neg hdir] at h ⊢
    cases hf1 : (pySorted (acc.1.filter (fun ss => pyIn (lastToken io) ss))).find?
        (fun t => (st.lookup t).getD Option.none == ioTypes io) with
    | some t =>
      rw [hf1] at h
      refine ⟨h, ?_⟩
      have hmem : t ∈ acc.1 := by
        have h1 := List.mem_of_find?_eq_some hf1
        rw [mem_pySorted] at h1
        exact (List.mem_filter.mp h1).1
      show (acc.1.erase t).length + 1 = acc.1.length
      rw [List.length_erase_of_mem hmem]
      have : 1 ≤ acc.1.length := List.length_pos.mpr (List.ne_nil_of_mem hmem)
      omega
    | none =>
      rw [hf1] at h
      cases hf2 : (pySorted (acc.1.filter (fun ss => !(pyIn (lastToken io) ss)))).find?
          (fun t => (st.lookup t).getD Option.none == ioTypes io) with
      | some t =>
        rw [hf2] at h
        refine ⟨h, ?_⟩
        have hmem : t ∈ acc.1 := by
          have h1 := List.mem_of_find?_eq_some hf2
          rw [mem_pySorted] at h1
          exact (List.mem_filter.mp h1).1
        show (acc.1.erase t).length + 1 = acc.1.length
        rw [List.length_erase_of_mem hmem]
        have : 1 ≤ acc.1.length := List.length_pos.mpr (List.ne_nil_of_mem hmem)
        omega
      | none =>
        rw [hf2] at h
        exact Bool.noConfusion h

theorem matchStep_false (ioTypes : Str → Option Str) (st : List (Str × Option Str))
    (acc : List Str × Bool) (io : Str) (h : acc.2 = false) :
    (matchStep ioTypes st acc io).2 = false := by
  unfold matchStep
  by_cases hdir : (acc.1.contains (lastToken io)
      && ((st.lookup (lastToken io)).getD Option.none == ioTypes io)) = true
  · rw [if_pos hdir]
    exact h
  · rw [if_neg hdir]
    cases hf1 : (pySorted (acc.1.filter (fun ss => pyIn (lastToken io) ss))).find?
        (fun t => (st.lookup t).getD Option.none == ioTypes io) with
    | some t => exact h
    | none =>
      cases hf2 : (pySorted (acc.1.filter (fun ss => !(pyIn (lastToken io) ss)))).find?
          (fun t => (st.lookup t).getD Option.none == ioTypes io) with
      | some t => exact h
      | none => rfl

theorem foldMatch_false (ioTypes : Str → Option Str) (st : List (Str × Option Str)) :
    ∀ (ios : List Str) (acc : List Str × Bool), acc.2 = false →
      (ios.foldl (matchStep ioTypes st) acc).2 = false := by
  intro ios
  induction ios with
  | nil => intro acc h; exact h
  | cons io rest ih =>
    intro acc h
    rw [List.foldl_cons]
    exact ih _ (matchStep_false ioTypes st acc io h)

theorem foldMatch_length (ioTypes : Str → Option Str) (st : List (Str × Option Str)) :
    ∀ (ios : List Str) (acc : List Str × Bool),
      (ios.foldl (matchStep ioTypes st) acc).2 = true →
      acc.2 = true
      ∧ (ios.foldl (matchStep ioTypes st) acc).1.length + ios.length = acc.1.length := by
  intro ios
  induction ios with
  | nil => intro acc h; exact ⟨h, rfl⟩
  | cons io rest ih =>
    intro acc h
    rw [List.foldl_cons] at h ⊢
    rcases ih (matchStep ioTypes st acc io) h with ⟨hstep2, hlen⟩
    rcases matchStep_sound ioTypes st acc io hstep2 with ⟨hacc2, hstep1⟩
    refine ⟨hacc2, ?_⟩
    rw [List.length_cons]
    omega

theorem matchTokenTypes_true_le (names : List Str) (ioTypes : Str → Option Str)
    (st : List (Str × Option Str))
    (h : matchTokenTypes names ioTypes (some st) = some true) :
    names.length ≤ st.length := by
  unfold matchTokenTypes at h
  have h2 := Option.some.inj h
  rcases foldMatch_length ioTypes st (pySorted names)
      (st.map (fun p => p.1), true) h2 with ⟨_, hlen⟩
  rw [length_pySorted, List.length_map] at hlen
  omega

theorem truthy_iff (v : Option Bool) : truthy v = true ↔ v = some true := by
  unfold truthy
  exact beq_iff_eq

theorem chainTrace_fst_iff (f : IoCat → Option Bool) :
    ∀ (cats : List IoCat) (v : Option Bool),
      (chainTrace f v cats).1 = some true
        ↔ (v = some true ∧ ∀ c ∈ cats, f c = some true) := by
  intro cats
  induction cats with
  | nil =>
    intro v
    simp [chainTrace]
  | cons c cs ih =>
    intro v
    unfold chainTrace
    by_cases ht : truthy v = true
    · rw [if_pos ht]
      simp only
      rw [ih]
      constructor
      · rintro ⟨hfc, hall⟩
        refine ⟨(truthy_iff v).mp ht, ?_⟩
        intro c' hc'
        rcases List.mem_cons.mp hc' with rfl | hmem
        · exact hfc
        · exact hall c' hmem
      · rintro ⟨hv, hall⟩
        exact ⟨hall c (List.mem_cons_self _ _),
          fun c' hc' => hall c' (List.mem_cons_of_mem _ hc')⟩
    · rw [if_neg ht]
      simp only
      constructor
      · intro hv
        exact absurd ((truthy_iff v).mpr hv) ht
      · rintro ⟨hv, _⟩
        exact absurd ((truthy_iff v).mpr hv) ht

theorem chainTrace_full (f : IoCat → Option Bool) :
    ∀ (cats : List IoCat) (v : Option Bool),
      (chainTrace f v cats).1 = some true → (chainTrace f v cats).2 = cats := by
  intro cats
  induction cats with
  | nil => intro v _; rfl
  | cons c cs ih =>
    intro v h
    unfold chainTrace at h ⊢
    by_cases ht : truthy v = true
    · rw [if_pos ht] at h ⊢
      simp only at h ⊢
      rw [ih (f c) h]
    · rw [if_neg ht] at h
      exact absurd ((truthy_iff v).mpr h) ht

theorem matchTokenTypes_nil (ioTypes : Str → Option Str)
    (m : List (Str × Option Str)) :
    matchTokenTypes [] ioTypes (some m) = some true := rfl

theorem matchTokenTypes_empty_spec (ioTypes : Str → Option Str) :
    ∀ (names : List Str), names ≠ [] →
      matchTokenTypes names ioTypes (some ([] : List (Str × Option Str)))
        = some false := by
  intro names hne
  unfold matchTokenTypes
  cases hs : pySorted names with
  | nil =>
    exfalso
    have := length_pySorted names
    rw [hs] at this
    exact hne (List.length_eq_zero.mp this.symm)
  | cons io rest =>
    show some (((io :: rest).foldl (matchStep ioTypes [])
      ((([] : List (Str × Option Str)).map (fun p => p.1)), true)).2) = some false
    rw [List.foldl_cons]
    have hstep : matchStep ioTypes []
        ((([] : List (Str × Option Str)).map (fun p => p.1)), true) io
        = (([] : List Str), false) := rfl
    rw [hstep, foldMatch_false ioTypes [] rest ([], false) rfl]

/-- C1 counterexample: with a failing parameters category (observed p
of type float against spec token q of type int), the node is invalid and
only the first parameters pass is token-matched — the published-topics
category, which would have validated (third conjunct), is skipped by the
short-circuiting and-chain rather than still validated. -/
theorem c1_remaining_categories_skipped_cex :
    validateNodeBuilder
      ⟨["p".data], [], [], ["out".data], [], []⟩
      ⟨(fun n => if n == "p".data then some "float".data else Option.none),
       (fun _ => Option.none),
       (fun n => if n == "out".data then some "T".data else Option.none),
       (fun _ => Option.none)⟩
      ⟨some [("q".data, some "int".data)], some [], some [],
       some [("out".data, some "T".data)], some [], some [], true⟩
      = Except.ok (some false, [IoCat.params1])
    ∧ IoCat.pubTopics ∉ [IoCat.params1]
    ∧ matchTokenTypes ["out".data]
        (fun n => if n == "out".data then some "T".data else Option.none)
        (some [("out".data, some "T".data)]) = some true := by
  refine ⟨rfl, by decide, rfl⟩

/-- C1 (amended): for a node with a validated NodeSpecification whose
category maps are all present, `_validate_node_builder` returns valid
(truthy True) if and only if every I/O category token-matches its
specification map in full; a category with observed items but no
specification entries makes the node invalid, and a category with no
observed items and an empty specification map leaves the node valid; but
a failure in one category short-circuits the and-chain, so the remaining
categories are skipped rather than still validated. -/
theorem c1_validate_node_builder_amended (nb : NodeData) (bt : BankTypes)
    (spec : NodeSpec) (ps m1 m2 m3 m4 m5 : List (Str × Option Str))
    (hps : spec.parameters = some ps)
    (hac : spec.actionClients = some m1)
    (has2 : spec.actionServers = some m2)
    (hpt : spec.publishedTopics = some m3)
    (hst : spec.subscribedTopics = some m4)
    (hsp : spec.servicesProvided = some m5) :
    (∃ r, validateNodeBuilder nb bt spec = Except.ok r
       ∧ (r.1 = some true ↔
           (matchTokenTypes nb.parameterNames bt.paramTypes (some ps) = some true
            ∧ matchTokenTypes nb.actionClients bt.actionTypes (some m1) = some true
            ∧ matchTokenTypes nb.actionServers bt.actionTypes (some m2) = some true
            ∧ matchTokenTypes nb.publishedTopicNames bt.topicTypes (some m3)
                = some true
            ∧ matchTokenTypes nb.subscribedTopicNames bt.topicTypes (some m4)
                = some true
            ∧ matchTokenTypes nb.serviceNamesWithRemap bt.serviceTypes (some m5)
                = some true))
       ∧ (r.1 = some true → r.2 = catOrder))
    ∧ (∀ (ioT : Str → Option Str) (m : List (Str × Option Str)),
         matchTokenTypes [] ioT (some m) = some true)
    ∧ (∀ (ioT : Str → Option Str) (names : List Str), names ≠ [] →
         matchTokenTypes names ioT (some ([] : List (Str × Option Str)))
           = some false)
    ∧ (∀ (f : IoCat → Option Bool) (v : Option Bool) (c : IoCat) (cs : List IoCat),
         truthy v = false → (chainTrace f v (c :: cs)).2 = []) := by
  have e1 : matchFor nb bt spec IoCat.params1
      = matchTokenTypes nb.parameterNames bt.paramTypes (some ps) := by
    unfold matchFor catNames catTypes catSpec
    rw [hps]
  have e2 : matchFor nb bt spec IoCat.params2
      = matchTokenTypes nb.parameterNames bt.paramTypes (some ps) := by
    unfold matchFor catNames catTypes catSpec
    rw [hps]
  have e3 : matchFor nb bt spec IoCat.actClients
      = matchTokenTypes nb.actionClients bt.actionTypes (some m1) := by
    unfold matchFor catNames catTypes catSpec
    rw [hac]
  have e4 : matchFor nb bt spec IoCat.actServers
      = matchTokenTypes nb.actionServers bt.actionTypes (some m2) := by
    unfold matchFor catNames catTypes catSpec
    rw [has2]
  have e5 : matchFor nb bt spec IoCat.pubTopics
      = matchTokenTypes nb.publishedTopicNames bt.topicTypes (some m3) := by
    unfold matchFor catNames catTypes catSpec
    rw [hpt]
  have e6 : matchFor nb bt spec IoCat.subTopics
      = matchTokenTypes nb.subscribedTopicNames bt.topicTypes (some m4) := by
    unfold matchFor catNames catTypes catSpec
    rw [hst]
  have e7 : matchFor nb bt spec IoCat.services
      = matchTokenTypes nb.serviceNamesWithRemap bt.serviceTypes (some m5) := by
    unfold matchFor catNames catTypes catSpec
    rw [hsp]
  refine ⟨⟨chainTrace (matchFor nb bt spec)
      (some (!(decide (ps.length < nb.parameterNames.length)))) catOrder,
      ?_, ?_, ?_⟩, ?_, ?_, ?_⟩
  · unfold validateNodeBuilder
    rw [hps]
  · rw [chainTrace_fst_iff]
    constructor
    · rintro ⟨_, hall⟩
      exact ⟨e1 ▸ hall IoCat.params1 (by decide),
        e3 ▸ hall IoCat.actClients (by decide),
        e4 ▸ hall IoCat.actServers (by decide),
        e5 ▸ hall IoCat.pubTopics (by decide),
        e6 ▸ hall IoCat.subTopics (by decide),
        e7 ▸ hall IoCat.services (by decide)⟩
    · rintro ⟨h1, h2, h3, h4, h5, h6⟩
      constructor
      · have hle := matchTokenTypes_true_le _ _ _ h1
        have hd : decide (ps.length < nb.parameterNames.length) = false := by
          rw [decide_eq_false_iff_not]
          omega
        rw [hd]
        rfl
      · intro c hc
        have hc' : c = IoCat.params1 ∨ c = IoCat.params2 ∨ c = IoCat.actClients
            ∨ c = IoCat.actServers ∨ c = IoCat.pubTopics ∨ c = IoCat.subTopics
            ∨ c = IoCat.services := by
          cases c <;> simp
        rcases hc' with rfl | rfl | rfl | rfl | rfl | rfl | rfl
        · rw [e1]; exact h1
        · rw [e2]; exact h1
        · rw [e3]; exact h2
        · rw [e4]; exact h3
        · rw [e5]; exact h4
        · rw [e6]; exact h5
        · rw [e7]; exact h6
  · intro htrue
    exact chainTrace_full _ _ _ htrue
  · intro ioT m
    exact matchTokenTypes_nil ioT m
  · intro ioT names hne
    exact matchTokenTypes_empty_spec ioT names hne
  · intro f v c cs hv
    unfold chainTrace
    rw [if_neg (by rw [hv]; exact Bool.noConfusion)]

/-- C1 witness: a node with no observed I/O against a validated spec
with all-empty category maps is valid, with every category matched. -/
theorem c1_validate_node_builder_amended_witness :
    ∃ r, validateNodeBuilder
        ⟨[], [], [], [], [], []⟩
        ⟨(fun _ => Option.none), (fun _ => Option.none),
         (fun _ => Option.none), (fun _ => Option.none)⟩
        ⟨some [], some [], some [], some [], some [], some [], true⟩
        = Except.ok r
      ∧ r.1 = some true ∧ r.2 = catOrder := by
  obtain ⟨r, hval, hiff, hfull⟩ :=
    (c1_validate_node_builder_amended
      ⟨[], [], [], [], [], []⟩
      ⟨(fun _ => Option.none), (fun _ => Option.none),
       (fun _ => Option.none), (fun _ => Option.none)⟩
      ⟨some [], some [], some [], some [], some [], some [], true⟩
      [] [] [] [] [] [] rfl rfl rfl rfl rfl rfl).1
  have htrue : r.1 = some true :=
    hiff.mpr ⟨matchTokenTypes_nil _ _, matchTokenTypes_nil _ _,
      matchTokenTypes_nil _ _, matchTokenTypes_nil _ _,
      matchTokenTypes_nil _ _, matchTokenTypes_nil _ _⟩
  exact ⟨r, hval, htrue, hfull htrue⟩

theorem mem_of_lookup_some {β : Type} :
    ∀ (m : List (Str × β)) (k : Str) (v : β), m.lookup k = some v →
      k ∈ m.map Prod.fst := by
  intro m k v h
  induction m with
  | nil => exact Option.noConfusion h
  | cons p rest ih =>
    obtain ⟨a, w⟩ := p
    rw [List.lookup_cons] at h
    rcases hk : (k == a) with _ | _
    · rw [hk] at h
      exact List.mem_cons_of_mem _ (ih h)
    · rw [List.map_cons]
      exact (eq_of_beq hk) ▸ List.mem_cons_self _ _

theorem mem_dictSet_keys_of_mem {β : Type} (m : List (Str × β)) (k k' : Str) (v : β)
    (h : k ∈ m.map Prod.fst) : k ∈ (dictSet m k' v).map Prod.fst := by
  rw [dictSet_keys]
  by_cases hc : (m.lookup k').isSome = true
  · rw [if_pos hc]
    exact h
  · rw [if_neg hc]
    exact List.mem_append_left _ h

theorem mem_dictSet_keys_self {β : Type} (m : List (Str × β)) (k : Str) (v : β) :
    k ∈ (dictSet m k v).map Prod.fst := by
  rw [dictSet_keys]
  by_cases hc : (m.lookup k).isSome = true
  · rw [if_pos hc]
    cases hl : m.lookup k with
    | none => rw [hl] at hc; simp at hc
    | some w => exact mem_of_lookup_some m k w hl
  · rw [if_neg hc]
    exact List.mem_append_right _ (List.mem_singleton.mpr rfl)

theorem updStep_keys (itemTypes : Str → Option Str)
    (st : List (Str × Option Str) × List (Str × Nat)) (n : Str)
    (st1 : List (Str × Option Str) × List (Str × Nat))
    (h : updStep itemTypes st n = Except.ok st1) :
    ∀ k, k ∈ st.1.map Prod.fst → k ∈ st1.1.map Prod.fst := by
  intro k hk
  unfold updStep at h
  by_cases hin : (st.1.lookup (lastToken n)).isSome = true
  · rw [if_pos hin] at h
    cases hc : st.2.lookup (lastToken n) with
    | none =>
      rw [hc] at h
      exact Except.noConfusion h
    | some cnt =>
      rw [hc] at h
      rw [← Except.ok.inj h]
      exact mem_dictSet_keys_of_mem _ _ _ _ hk
  · rw [if_neg hin] at h
    rw [← Except.ok.inj h]
    exact mem_dictSet_keys_of_mem _ _ _ _ hk

theorem updFold_keys (itemTypes : Str → Option Str) :
    ∀ (names : List Str) (st st' : List (Str × Option Str) × List (Str × Nat)),
      updFold itemTypes names st = Except.ok st' →
      ∀ k, k ∈ st.1.map Prod.fst → k ∈ st'.1.map Prod.fst := by
  intro names
  induction names with
  | nil =>
    intro st st' h k hk
    rw [← Except.ok.inj (by exact h : Except.ok st = Except.ok st')]
    exact hk
  | cons n rest ih =>
    intro st st' h k hk
    unfold updFold at h
    cases hs : updStep itemTypes st n with
    | error u =>
      rw [hs] at h
      exact Except.noConfusion h
    | ok st1 =>
      rw [hs] at h
      exact ih st1 st' h k (updStep_keys itemTypes st n st1 hs k hk)

theorem updStep_records (itemTypes : Str → Option Str)
    (st : List (Str × Option Str) × List (Str × Nat)) (n : Str)
    (st1 : List (Str × Option Str) × List (Str × Nat))
    (h : updStep itemTypes st n = Except.ok st1) :
    ∃ k, k ∈ st1.1.map Prod.fst
      ∧ (k = lastToken n
         ∨ ∃ cnt : Nat, k = lastToken n ++ '_' :: Nat.toDigits 10 cnt) := by
  unfold updStep at h
  by_cases hin : (st.1.lookup (lastToken n)).isSome = true
  · rw [if_pos hin] at h
    cases hc : st.2.lookup (lastToken n) with
    | none =>
      rw [hc] at h
      exact Except.noConfusion h
    | some cnt =>
      rw [hc] at h
      refine ⟨lastToken n ++ '_' :: Nat.toDigits 10 (cnt + 1), ?_, Or.inr ⟨cnt + 1, rfl⟩⟩
      rw [← Except.ok.inj h]
      exact mem_dictSet_keys_self _ _ _
  · rw [if_neg hin] at h
    refine ⟨lastToken n, ?_, Or.inl rfl⟩
    rw [← Except.ok.inj h]
    exact mem_dictSet_keys_self _ _ _

theorem updFold_records (itemTypes : Str → Option Str) :
    ∀ (names : List Str) (st st' : List (Str × Option Str) × List (Str × Nat))
      (name : Str), name ∈ names → updFold itemTypes names st = Except.ok st' →
      ∃ k, k ∈ st'.1.map Prod.fst
        ∧ (k = lastToken name
           ∨ ∃ cnt : Nat, k = lastToken name ++ '_' :: Nat.toDigits 10 cnt) := by
  intro names
  induction names with
  | nil =>
    intro st st' name hmem _
    exact absurd hmem (List.not_mem_nil _)
  | cons n rest ih =>
    intro st st' name hmem h
    unfold updFold at h
    cases hs : updStep itemTypes st n with
    | error u =>
      rw [hs] at h
      exact Except.noConfusion h
    | ok st1 =>
      rw [hs] at h
      rcases List.mem_cons.mp hmem with rfl | hrest
      · rcases updStep_records itemTypes st name st1 hs with ⟨k, hk, hshape⟩
        exact ⟨k, updFold_keys itemTypes rest st1 st' h k hk, hshape⟩
      · exact ih st1 st' name hrest h

/-- C2: learning from an unvalidated specification.
First conjunct: the learned specification is always marked validated.
Second: a data pass merges into existing category data — every existing
key survives.  Third: each observed name is recorded under its trailing
slash-token, or under that token suffixed with an underscore counter
when it collides.  Fourth: a concrete in-pass collision (names a and
b/a) is disambiguated as a_1.  Fifth: the node /bar scenario — only
parameter thresh of type float against a fresh unvalidated spec with no
parameters yields parameters thresh to float and validated True. -/
theorem c2_update_node_specification_learns :
    (∀ (spec : NodeSpec) (nb : NodeData) (bt : BankTypes) (spec' : NodeSpec),
       updateNodeSpecification spec nb bt = Except.ok spec' →
       spec'.validated = true)
    ∧ (∀ (sd : List (Str × Option Str)) (names : List Str)
         (t : Str → Option Str) (r : List (Str × Option Str)),
         updateNodeSpecificationData sd names t = Except.ok r →
         ∀ k, k ∈ sd.map Prod.fst → k ∈ r.map Prod.fst)
    ∧ (∀ (sd : List (Str × Option Str)) (names : List Str)
         (t : Str → Option Str) (r : List (Str × Option Str)) (name : Str),
         updateNodeSpecificationData sd names t = Except.ok r → name ∈ names →
         ∃ k, k ∈ r.map Prod.fst
           ∧ (k = lastToken name
              ∨ ∃ cnt : Nat, k = lastToken name ++ '_' :: Nat.toDigits 10 cnt))
    ∧ updateNodeSpecificationData [] ["a".data, "b/a".data]
        (fun n => if n == "a".data then some "f".data else some "g".data)
        = Except.ok [("a".data, some "f".data), ("a_1".data, some "g".data)]
    ∧ updateNodeSpecification
        ⟨Option.none, Option.none, Option.none, Option.none, Option.none,
         Option.none, false⟩
        ⟨["thresh".data], [], [], [], [], []⟩
        ⟨(fun n => if n == "thresh".data then some "float".data else Option.none),
         (fun _ => Option.none), (fun _ => Option.none), (fun _ => Option.none)⟩
        = Except.ok
          ⟨some [("thresh".data, some "float".data)], some [], some [],
           some [], some [], some [], true⟩ := by
  refine ⟨?_, ?_, ?_, rfl, rfl⟩
  · intro spec nb bt spec' h
    unfold updateNodeSpecification at h
    simp only [bind, Except.bind, pure, Except.pure] at h
    repeat' split at h
    all_goals
      first
      | exact Except.noConfusion h
      | (rw [← Except.ok.inj h])
  · intro sd names t r h k hk
    unfold updateNodeSpecificationData at h
    cases hf : updFold t (pySorted names) (sd, sd.map (fun p => (p.1, (0 : Nat)))) with
    | error u =>
      rw [hf] at h
      exact Except.noConfusion h
    | ok st =>
      rw [hf] at h
      rw [← Except.ok.inj h]
      exact updFold_keys t (pySorted names) _ st hf k hk
  · intro sd names t r name h hmem
    unfold updateNodeSpecificationData at h
    cases hf : updFold t (pySorted names) (sd, sd.map (fun p => (p.1, (0 : Nat)))) with
    | error u =>
      rw [hf] at h
      exact Except.noConfusion h
    | ok st =>
      rw [hf] at h
      rw [← Except.ok.inj h]
      exact updFold_records t (pySorted names) _ st name
        ((mem_pySorted name names).mpr hmem) hf

/-- C2 witness: the merge and recording clauses applied at concrete
inputs. -/
theorem c2_update_node_specification_learns_witness :
    (∀ k, k ∈ ([("old".data, some "T".data)] : List (Str × Option Str)).map Prod.fst →
       k ∈ ([("old".data, some "T".data), ("thresh".data, some "float".data)]
         : List (Str × Option Str)).map Prod.fst)
    ∧ ∃ k, k ∈ ([("thresh".data, some "float".data)]
          : List (Str × Option Str)).map Prod.fst
        ∧ (k = lastToken "thresh".data
           ∨ ∃ cnt : Nat,
               k = lastToken "thresh".data ++ '_' :: Nat.toDigits 10 cnt) :=
  ⟨c2_update_node_specification_learns.2.1 [("old".data, some "T".data)]
      ["thresh".data]
      (fun n => if n == "thresh".data then some "float".data else Option.none)
      [("old".data, some "T".data), ("thresh".data, some "float".data)] rfl,
   c2_update_node_specification_learns.2.2.1 [] ["thresh".data]
      (fun n => if n == "thresh".data then some "float".data else Option.none)
      [("thresh".data, some "float".data)] "thresh".data rfl (by decide)⟩

end ReconcilerTheorems

section UpdateAttributes

/-!
`core/base_metamodel.py`, method `_EntityMetamodel.update_attributes`.
Python attribute values are modelled by `Val`; an entity is the
insertion-ordered dict of its attributes.  Structural equality (`Val.beq`)
models Python `==` — for dicts and sets Python compares extensionally,
but the two views agree on every final state update_attributes can
produce, because a dict/set update whose argument is extensionally
contained in the target leaves the target unchanged.  Python's numeric
cross-type equalities (True == 1) are outside the model.
-/

/-- A Python attribute value: None, bool, int, str, list, dict or set.
Sets are carried as lists of their elements in iteration order. -/
inductive Val where
  | none
  | bool (b : Bool)
  | int (i : Int)
  | str (s : Str)
  | list (l : List Val)
  | dict (d : List (Str × Val))
  | set (s : List Val)

mutual

/-- Structural equality on values (Python == restricted as noted above). -/
def Val.beq : Val → Val → Bool
  | Val.none, Val.none => true
  | Val.bool a, Val.bool b => a == b
  | Val.int a, Val.int b => a == b
  | Val.str a, Val.str b => a == b
  | Val.list a, Val.list b => beqValList a b
  | Val.dict a, Val.dict b => beqValDict a b
  | Val.set a, Val.set b => beqValList a b
  | _, _ => false

/-- Pointwise equality of value lists. -/
def beqValList : List Val → List Val → Bool
  | [], [] => true
  | a :: as, b :: bs => Val.beq a b && beqValList as bs
  | _, _ => false

/-- Pointwise equality of key-value lists. -/
def beqValDict : List (Str × Val) → List (Str × Val) → Bool
  | [], [] => true
  | (k1, v1) :: as, (k2, v2) :: bs => k1 == k2 && Val.beq v1 v2 && beqValDict as bs
  | _, _ => false

end

/-- Python `x in l` for a list/set of values (membership by ==). -/
def pyMem (x : Val) (l : List Val) : Bool := l.any (fun y => Val.beq y x)

/-- Python `d.update(d2)` for dicts: set each key of `d2` in order
(existing keys keep their position, new keys append). -/
def dictUpdateVal (d d2 : List (Str × Val)) : List (Str × Val) :=
  d2.foldl (fun acc kv => dictSet acc kv.1 kv.2) d

/-- Python `s.update(items)` for sets: add each item not already a
member, in order. -/
def setUpdateVal (s items : List Val) : List Val :=
  items.foldl (fun acc x => if pyMem x acc then acc else acc ++ [x]) s

/-- Decimal rendering of an integer (`str(int)`). -/
def intToStr (i : Int) : Str :=
  match i with
  | Int.ofNat n => Nat.toDigits 10 n
  | Int.negSucc n => '-' :: Nat.toDigits 10 (n + 1)

/-- Python `str(value)`, precise on the scalar shapes; containers render
as a placeholder (only reachable through the version-concatenation
branch, which well-typed entities — whose version is an int — never
take). -/
def pyStrOfVal : Val → Str
  | Val.none => "None".data
  | Val.bool true => "True".data
  | Val.bool false => "False".data
  | Val.int i => intToStr i
  | Val.str s => s
  | Val.list _ => "<list>".data
  | Val.dict _ => "<dict>".data
  | Val.set _ => "<set>".data

/-- Python `int(value)`: identity on ints, 0/1 on bools, decimal parse
on strings (optional sign, digits), failure (`TypeError`/`ValueError`,
which update_attributes catches) otherwise. -/
def pyIntOfVal : Val → Option Int
  | Val.int i => some i
  | Val.bool b => some (if b then 1 else 0)
  | Val.str s =>
    let digits := fun (l : Str) =>
      if l ≠ [] && l.all (fun c => c.isDigit)
      then some (l.foldl (fun acc c => acc * 10 + (c.toNat - 48)) 0) else Option.none
    (match s with
     | '-' :: rest => (digits rest).map (fun n => -(Int.ofNat n))
     | '+' :: rest => (digits rest).map Int.ofNat
     | _ => (digits s).map Int.ofNat)
  | _ => Option.none

/-- Is this value Python `None` (the `is None` tests)? -/
def isNoneVal : Val → Bool
  | Val.none => true
  | _ => false

/-- One `(key, value)` step of `update_attributes`: `cur` is the current
attribute value (`Option.none` models a missing attribute, i.e. the
`AttributeError` branch), `inc` the incoming value, `isVersion` whether
the key is the string version.  `Except.error` models an uncaught
`TypeError` from `dict.update`/`set.update` on an incompatible argument. -/
def pyUpdateField (isVersion : Bool) (cur : Option Val) (inc : Val) : Except Unit Val :=
  match cur with
  | Option.none => Except.ok inc
  | Option.some Val.none => Except.ok inc
  | Option.some v =>
    if Val.beq v inc && !isVersion then Except.ok v
    else if isNoneVal inc then Except.ok v
    else if isVersion then
      match v with
      | Val.int i =>
        Except.ok (Val.int ((match pyIntOfVal inc with
          | some j => max i j
          | Option.none => i) + 1))
      | _ => Except.ok (Val.str (pyStrOfVal v ++ "_".data ++ pyStrOfVal inc))
    else
      match v with
      | Val.list l =>
        match inc with
        | Val.list l2 => Except.ok (Val.list (l ++ l2))
        | x => if pyMem x l then Except.ok (Val.list l)
               else Except.ok (Val.list (l ++ [x]))
      | Val.dict d =>
        match inc with
        | Val.dict d2 => Except.ok (Val.dict (dictUpdateVal d d2))
        | _ => Except.error ()
      | Val.set s =>
        match inc with
        | Val.set s2 => Except.ok (Val.set (setUpdateVal s s2))
        | Val.list l2 => Except.ok (Val.set (setUpdateVal s l2))
        | Val.str s2 =>
          Except.ok (Val.set (setUpdateVal s (s2.map (fun c => Val.str [c]))))
        | Val.dict d2 =>
          Except.ok (Val.set (setUpdateVal s (d2.map (fun kv => Val.str kv.1))))
        | _ => Except.error ()
      | Val.str s0 =>
        match inc with
        | Val.list l2 => Except.ok (Val.list (Val.str s0 :: l2))
        | x => if pyMem x [Val.str s0] then Except.ok (Val.list [Val.str s0])
               else Except.ok (Val.list [Val.str s0, x])
      | _ => Except.ok inc

/-- The attribute key version. -/
def versionKey : Str := "version".data

/-- The method `update_attributes(**kwargs)`: fold the per-field step
over the keyword arguments in order, storing each result. -/
def updateAttributes (e : List (Str × Val)) : List (Str × Val) →
    Except Unit (List (Str × Val))
  | [] => Except.ok e
  | (k, v) :: rest =>
    match pyUpdateField (k == versionKey) (e.lookup k) v with
    | Except.error _ => Except.error ()
    | Except.ok nv => updateAttributes (dictSet e k nv) rest

end UpdateAttributes

section UpdateAttributesTheorems

mutual

theorem Val.beq_refl : ∀ v : Val, Val.beq v v = true
  | Val.none => rfl
  | Val.bool b => by simp [Val.beq]
  | Val.int i => by simp [Val.beq]
  | Val.str s => by simp [Val.beq]
  | Val.list l => beqValList_refl l
  | Val.dict d => beqValDict_refl d
  | Val.set s => beqValList_refl s

theorem beqValList_refl : ∀ l : List Val, beqValList l l = true
  | [] => rfl
  | a :: as => by
    show (Val.beq a a && beqValList as as) = true
    rw [Val.beq_refl a, beqValList_refl as]
    rfl

theorem beqValDict_refl : ∀ d : List (Str × Val), beqValDict d d = true
  | [] => rfl
  | (k, v) :: rest => by
    show ((k == k && Val.beq v v) && beqValDict rest rest) = true
    rw [beq_self_eq_true, Val.beq_refl v, beqValDict_refl rest]
    rfl

end

theorem beq_none_right : ∀ v : Val, v ≠ Val.none → Val.beq v Val.none = false := by
  intro v h
  cases v <;> first | exact absurd rfl h | rfl

theorem isNoneVal_eq_false : ∀ v : Val, v ≠ Val.none → isNoneVal v = false := by
  intro v h
  cases v <;> first | exact absurd rfl h | rfl

theorem beq_list_shape (l : List Val) (x : Val) (h : ∀ l2, x ≠ Val.list l2) :
    Val.beq (Val.list l) x = false := by
  cases x <;> first | rfl | exact absurd rfl (h _)

/-- C7: update_attributes implements the stated merge semantics for
every entity and every incoming (field, value) pair: each keyword pair
is processed by one per-field step (first conjunct); an unset field
(missing or None) is set directly; an identical value is a no-op except
version, which always increments; a None incoming value on a set field
is ignored; version otherwise becomes max(current, incoming) + 1; a
list-typed field is extended by a list input, or appended for a scalar
input not already present; dict and set fields are unioned; and a string
field is promoted to a list on a conflicting re-assignment. -/
theorem c7_update_attributes_merge_semantics :
    (∀ (e : List (Str × Val)) (k : Str) (v : Val),
       updateAttributes e [(k, v)]
         = match pyUpdateField (k == versionKey) (e.lookup k) v with
           | Except.ok nv => Except.ok (dictSet e k nv)
           | Except.error _ => Except.error ())
    ∧ (∀ (isV : Bool) (inc : Val),
        pyUpdateField isV Option.none inc = Except.ok inc
        ∧ pyUpdateField isV (some Val.none) inc = Except.ok inc)
    ∧ (∀ v inc : Val, v ≠ Val.none → Val.beq v inc = true →
        pyUpdateField false (some v) inc = Except.ok v)
    ∧ (∀ i : Int, pyUpdateField true (some (Val.int i)) (Val.int i)
        = Except.ok (Val.int (i + 1)))
    ∧ (∀ (isV : Bool) (v : Val), v ≠ Val.none →
        pyUpdateField isV (some v) Val.none = Except.ok v)
    ∧ (∀ i j : Int, pyUpdateField true (some (Val.int i)) (Val.int j)
        = Except.ok (Val.int (max i j + 1)))
    ∧ (∀ l l2 : List Val, Val.beq (Val.list l) (Val.list l2) = false →
        pyUpdateField false (some (Val.list l)) (Val.list l2)
          = Except.ok (Val.list (l ++ l2)))
    ∧ (∀ (l : List Val) (x : Val), (∀ l2, x ≠ Val.list l2) → x ≠ Val.none →
        pyMem x l = false →
        pyUpdateField false (some (Val.list l)) x = Except.ok (Val.list (l ++ [x])))
    ∧ (∀ d d2 : List (Str × Val), Val.beq (Val.dict d) (Val.dict d2) = false →
        pyUpdateField false (some (Val.dict d)) (Val.dict d2)
          = Except.ok (Val.dict (dictUpdateVal d d2)))
    ∧ (∀ s s2 : List Val, Val.beq (Val.set s) (Val.set s2) = false →
        pyUpdateField false (some (Val.set s)) (Val.set s2)
          = Except.ok (Val.set (setUpdateVal s s2)))
    ∧ (∀ (s0 : Str) (l2 : List Val),
        pyUpdateField false (some (Val.str s0)) (Val.list l2)
          = Except.ok (Val.list (Val.str s0 :: l2)))
    ∧ (∀ (s0 : Str) (x : Val), Val.beq (Val.str s0) x = false → x ≠ Val.none →
        (∀ l2, x ≠ Val.list l2) →
        pyUpdateField false (some (Val.str s0)) x
          = Except.ok (Val.list [Val.str s0, x])) := by
  refine ⟨?_, ?_, ?_, ?_, ?_, ?_, ?_, ?_, ?_, ?_, ?_, ?_⟩
  · intro e k v
    unfold updateAttributes
    cases pyUpdateField (k == versionKey) (e.lookup k) v with
    | error u => rfl
    | ok nv => rfl
  · intro isV inc
    exact ⟨rfl, rfl⟩
  · intro v inc hne hbeq
    cases v <;> first
      | exact absurd rfl hne
      | (simp [pyUpdateField, hbeq])
  · intro i
    simp [pyUpdateField, Val.beq, isNoneVal, pyIntOfVal]
  · intro isV v hne
    cases v <;> first
      | exact absurd rfl hne
      | (cases isV <;> simp [pyUpdateField, Val.beq, isNoneVal])
  · intro i j
    by_cases hij : i = j
    · subst hij
      simp [pyUpdateField, Val.beq, isNoneVal, pyIntOfVal]
    · have hbeq : Val.beq (Val.int i) (Val.int j) = false := by
        simp [Val.beq]
        exact hij
      simp [pyUpdateField, hbeq, isNoneVal, pyIntOfVal]
  · intro l l2 hbeq
    simp [pyUpdateField, hbeq, isNoneVal]
  · intro l x hshape hnone hmem
    have hbeq : Val.beq (Val.list l) x = false := beq_list_shape l x hshape
    cases x <;> first
      | exact absurd rfl hnone
      | exact absurd rfl (hshape _)
      | (simp [pyUpdateField, hbeq, isNoneVal, hmem])
  · intro d d2 hbeq
    simp [pyUpdateField, hbeq, isNoneVal]
  · intro s s2 hbeq
    simp [pyUpdateField, hbeq, isNoneVal]
  · intro s0 l2
    have hbeq : Val.beq (Val.str s0) (Val.list l2) = false := rfl
    simp [pyUpdateField, hbeq, isNoneVal]
  · intro s0 x hbeq hnone hshape
    have hmem : pyMem x [Val.str s0] = false := by
      simp [pyMem, hbeq]
    cases x <;> first
      | exact absurd rfl hnone
      | exact absurd rfl (hshape _)
      | (simp [pyUpdateField, hbeq, isNoneVal, hmem])

/-- C7 witness: the merge rules applied at concrete field values. -/
theorem c7_update_attributes_merge_semantics_witness :
    pyUpdateField false (some (Val.int 3)) (Val.int 3) = Except.ok (Val.int 3)
    ∧ pyUpdateField false (some (Val.list [Val.int 1])) (Val.list [Val.int 2])
        = Except.ok (Val.list [Val.int 1, Val.int 2])
    ∧ pyUpdateField false (some (Val.list [Val.int 1])) (Val.int 2)
        = Except.ok (Val.list [Val.int 1, Val.int 2])
    ∧ pyUpdateField false (some (Val.dict [("a".data, Val.int 1)]))
          (Val.dict [("b".data, Val.int 2)])
        = Except.ok (Val.dict
            (dictUpdateVal [("a".data, Val.int 1)] [("b".data, Val.int 2)]))
    ∧ pyUpdateField false (some (Val.set [Val.int 1])) (Val.set [Val.int 2])
        = Except.ok (Val.set (setUpdateVal [Val.int 1] [Val.int 2]))
    ∧ pyUpdateField false (some (Val.str "a".data)) (Val.str "b".data)
        = Except.ok (Val.list [Val.str "a".data, Val.str "b".data])
    ∧ pyUpdateField true (some (Val.int 0)) Val.none = Except.ok (Val.int 0) :=
  ⟨c7_update_attributes_merge_semantics.2.2.1 (Val.int 3) (Val.int 3)
      (fun h => Val.noConfusion h) (by decide),
   c7_update_attributes_merge_semantics.2.2.2.2.2.2.1 [Val.int 1] [Val.int 2]
      (by decide),
   c7_update_attributes_merge_semantics.2.2.2.2.2.2.2.1 [Val.int 1] (Val.int 2)
      (fun l2 h => Val.noConfusion h) (fun h => Val.noConfusion h) (by decide),
   c7_update_attributes_merge_semantics.2.2.2.2.2.2.2.2.1
      [("a".data, Val.int 1)] [("b".data, Val.int 2)] (by decide),
   c7_update_attributes_merge_semantics.2.2.2.2.2.2.2.2.2.1
      [Val.int 1] [Val.int 2] (by decide),
   c7_update_attributes_merge_semantics.2.2.2.2.2.2.2.2.2.2.2 "a".data
      (Val.str "b".data) (by decide) (fun h => Val.noConfusion h)
      (fun l2 h => Val.noConfusion h),
   c7_update_attributes_merge_semantics.2.2.2.2.1 true (Val.int 0)
      (fun h => Val.noConfusion h)⟩

theorem second_ok_of_eq (v : Val) : pyUpdateField false (some v) v = Except.ok v := by
  cases v with
  | none => rfl
  | bool b => simp [pyUpdateField, Val.beq_refl]
  | int i => simp [pyUpdateField, Val.beq_refl]
  | str s => simp [pyUpdateField, Val.beq_refl]
  | list l => simp [pyUpdateField, Val.beq_refl]
  | dict d => simp [pyUpdateField, Val.beq_refl]
  | set s => simp [pyUpdateField, Val.beq_refl]

theorem pyMem_append_self (x : Val) (l : List Val) : pyMem x (l ++ [x]) = true := by
  unfold pyMem
  rw [List.any_append]
  have h2 : ([x].any fun y => Val.beq y x) = true := by
    show (Val.beq x x || false) = true
    rw [Val.beq_refl x]
    rfl
  rw [h2, Bool.or_true]

theorem pyMem_setUpdate_mono (x : Val) (s items : List Val) (h : pyMem x s = true) :
    pyMem x (setUpdateVal s items) = true := by
  induction items generalizing s with
  | nil => exact h
  | cons y rest ih =>
    unfold setUpdateVal
    rw [List.foldl_cons]
    by_cases hy : pyMem y s = true
    · rw [if_pos hy]
      exact ih s h
    · rw [if_neg hy]
      apply ih
      unfold pyMem at h ⊢
      rw [List.any_append, h]
      rfl

theorem pyMem_setUpdate_of_mem (x : Val) (s items : List Val) (h : x ∈ items) :
    pyMem x (setUpdateVal s items) = true := by
  induction items generalizing s with
  | nil => exact absurd h (List.not_mem_nil x)
  | cons y rest ih =>
    unfold setUpdateVal
    rw [List.foldl_cons]
    rcases List.mem_cons.mp h with hx | hx
    · subst hx
      by_cases hy : pyMem x s = true
      · rw [if_pos hy]
        exact pyMem_setUpdate_mono x s rest hy
      · rw [if_neg hy]
        exact pyMem_setUpdate_mono x (s ++ [x]) rest (pyMem_append_self x s)
    · by_cases hy : pyMem y s = true
      · rw [if_pos hy]
        exact ih s hx
      · rw [if_neg hy]
        exact ih (s ++ [y]) hx

theorem setUpdate_absorb (s items : List Val) (h : ∀ x ∈ items, pyMem x s = true) :
    setUpdateVal s items = s := by
  induction items with
  | nil => rfl
  | cons y rest ih =>
    unfold setUpdateVal
    rw [List.foldl_cons, if_pos (h y (List.mem_cons_self _ _))]
    exact ih (fun x hx => h x (List.mem_cons_of_mem _ hx))

theorem setUpdate_idem (s items : List Val) :
    setUpdateVal (setUpdateVal s items) items = setUpdateVal s items :=
  setUpdate_absorb _ _ (fun x hx => pyMem_setUpdate_of_mem x s items hx)

theorem lookup_none_not_mem {β : Type} (m : List (Str × β)) (k : Str)
    (h : m.lookup k = none) : k ∉ m.map Prod.fst := by
  induction m with
  | nil => simp
  | cons p rest ih =>
    obtain ⟨a, w⟩ := p
    rw [List.lookup_cons] at h
    rcases hk : (k == a) with _ | _
    · rw [hk] at h
      rw [List.map_cons]
      intro hmem
      rcases List.mem_cons.mp hmem with he | ht
      · rw [he] at hk
        simp at hk
      · exact ih h ht
    · rw [hk] at h
      exact Option.noConfusion h

theorem dictSet_nodup {β : Type} (m : List (Str × β)) (k : Str) (v : β)
    (h : (m.map Prod.fst).Nodup) : ((dictSet m k v).map Prod.fst).Nodup := by
  rw [dictSet_keys]
  by_cases hc : (m.lookup k).isSome = true
  · rw [if_pos hc]
    exact h
  · rw [if_neg hc]
    have hnone : m.lookup k = none := by
      cases hl : m.lookup k with
      | none => rfl
      | some v' => rw [hl] at hc; simp at hc
    rw [List.nodup_append]
    refine ⟨h, (by simp : ([k] : List Str).Nodup), ?_⟩
    intro a ha hb
    rw [List.mem_singleton] at hb
    rw [hb] at ha
    exact lookup_none_not_mem m k hnone ha

theorem strBeq_comm (a k : Str) : (a == k) = (k == a) := by
  by_cases h : a = k
  · rw [h]
  · rw [beq_eq_false_iff_ne.mpr h, beq_eq_false_iff_ne.mpr (fun hk => h hk.symm)]

theorem lookup_append_eq {β : Type} :
    ∀ (m m' : List (Str × β)) (k : Str),
      (m ++ m').lookup k
        = (match m.lookup k with
           | some v => some v
           | Option.none => m'.lookup k) := by
  intro m m' k
  induction m with
  | nil => simp
  | cons p rest ih =>
    obtain ⟨a, w⟩ := p
    rw [List.cons_append, List.lookup_cons, List.lookup_cons]
    rcases hk : (k == a) with _ | _
    · exact ih
    · rfl

theorem lookup_map_replace {β : Type} :
    ∀ (m : List (Str × β)) (k : Str) (v : β), (m.lookup k).isSome = true →
      (m.map (fun p => if p.1 == k then (k, v) else p)).lookup k = some v := by
  intro m k v h
  induction m with
  | nil => simp at h
  | cons p rest ih =>
    obtain ⟨a, w⟩ := p
    rw [List.map_cons]
    by_cases ha : (a == k) = true
    · rw [show (if (a, w).1 == k then (k, v) else (a, w)) = (k, v) from by
        show (if a == k then (k, v) else (a, w)) = (k, v)
        rw [if_pos ha]]
      rw [List.lookup_cons, beq_self_eq_true]
    · have ha' : ((a, w).1 == k) = false := by
        show (a == k) = false
        rcases hq : (a == k) with _ | _
        · rfl
        · exact absurd hq ha
      rw [show (if (a, w).1 == k then (k, v) else (a, w)) = (a, w) from by
        rw [ha']
        rfl]
      rw [List.lookup_cons]
      have hka : (k == a) = false := by rw [strBeq_comm]; exact ha'
      rw [hka]
      apply ih
      rw [List.lookup_cons, hka] at h
      exact h

theorem dictSet_lookup_self {β : Type} (m : List (Str × β)) (k : Str) (v : β) :
    (dictSet m k v).lookup k = some v := by
  cases hl : m.lookup k with
  | none =>
    rw [dictSet_absent m k v hl]
    exact lookup_append_single_of_none m k v hl
  | some w =>
    unfold dictSet
    rw [hl]
    simp only [Option.isSome_some, if_true]
    exact lookup_map_replace m k v (by rw [hl]; rfl)

theorem lookup_map_replace_other {β : Type} :
    ∀ (m : List (Str × β)) (k k' : Str) (v : β), (k' == k) = false →
      (m.map (fun p => if p.1 == k then (k, v) else p)).lookup k' = m.lookup k' := by
  intro m k k' v hne
  induction m with
  | nil => rfl
  | cons p rest ih =>
    obtain ⟨a, w⟩ := p
    rw [List.map_cons]
    by_cases ha : (a == k) = true
    · rw [show (if (a, w).1 == k then (k, v) else (a, w)) = (k, v) from by
        show (if a == k then (k, v) else (a, w)) = (k, v)
        rw [if_pos ha]]
      rw [List.lookup_cons, List.lookup_cons, hne]
      have hka : (k' == a) = false := by
        rw [eq_of_beq ha]
        exact hne
      rw [hka]
      exact ih
    · rw [show (if (a, w).1 == k then (k, v) else (a, w)) = (a, w) from by
        show (if a == k then (k, v) else (a, w)) = (a, w)
        rw [if_neg ha]]
      rw [List.lookup_cons, List.lookup_cons]
      rcases hq : (k' == a) with _ | _
      · exact ih
      · rfl

theorem dictSet_lookup_other {β : Type} (m : List (Str × β)) (k k' : Str) (v : β)
    (hne : (k' == k) = false) : (dictSet m k v).lookup k' = m.lookup k' := by
  cases hl : m.lookup k with
  | none =>
    rw [dictSet_absent m k v hl, lookup_append_eq]
    cases hl' : m.lookup k' with
    | none =>
      rw [List.lookup_cons, hne]
      rfl
    | some w => rfl
  | some w =>
    unfold dictSet
    rw [hl]
    simp only [Option.isSome_some, if_true]
    exact lookup_map_replace_other m k k' v hne

theorem lookup_of_mem_nodup {β : Type} :
    ∀ (m : List (Str × β)), (m.map Prod.fst).Nodup →
      ∀ (k : Str) (w : β), (k, w) ∈ m → m.lookup k = some w := by
  intro m
  induction m with
  | nil => intro _ k w h; exact absurd h (List.not_mem_nil _)
  | cons p rest ih =>
    obtain ⟨a, b⟩ := p
    intro hnd k w hmem
    rw [List.map_cons, List.nodup_cons] at hnd
    rcases List.mem_cons.mp hmem with hh | ht
    · have hk : k = a := (Prod.ext_iff.mp hh).1
      have hw : w = b := (Prod.ext_iff.mp hh).2
      rw [List.lookup_cons, hk, hw, beq_self_eq_true]
    · rw [List.lookup_cons]
      rcases hq : (k == a) with _ | _
      · exact ih hnd.2 k w ht
      · exfalso
        apply hnd.1
        rw [show (a, b).1 = k from (eq_of_beq hq).symm]
        exact List.mem_map_of_mem Prod.fst ht

theorem dictSet_noop {β : Type} (m : List (Str × β)) (k : Str) (v : β)
    (hnd : (m.map Prod.fst).Nodup) (h : m.lookup k = some v) : dictSet m k v = m := by
  unfold dictSet
  rw [h]
  simp only [Option.isSome_some, if_true]
  rw [List.map_congr_left, List.map_id]
  intro p hp
  by_cases hpk : (p.1 == k) = true
  · have hk : p.1 = k := eq_of_beq hpk
    have hlk : m.lookup p.1 = some p.2 := lookup_of_mem_nodup m hnd p.1 p.2 hp
    rw [hk] at hlk
    rw [h] at hlk
    have hv : v = p.2 := Option.some.inj hlk
    rw [if_pos hpk, hv, ← hk]
    exact Prod.mk.eta
  · rw [if_neg hpk]
    rfl

theorem dictUpdate_preserves_other :
    ∀ (d2 : List (Str × Val)) (m : List (Str × Val)) (k : Str),
      (∀ kv ∈ d2, (k == kv.1) = false) →
      (dictUpdateVal m d2).lookup k = m.lookup k := by
  intro d2
  induction d2 with
  | nil => intro m k _; rfl
  | cons kv rest ih =>
    intro m k h
    unfold dictUpdateVal
    rw [List.foldl_cons]
    have hstep := dictSet_lookup_other m kv.1 k kv.2 (h kv (List.mem_cons_self _ _))
    have := ih (dictSet m kv.1 kv.2) k (fun kv' hkv' => h kv' (List.mem_cons_of_mem _ hkv'))
    unfold dictUpdateVal at this
    rw [this, hstep]

theorem dictUpdate_covers :
    ∀ (d2 : List (Str × Val)), (d2.map Prod.fst).Nodup →
      ∀ (m : List (Str × Val)) (kv : Str × Val), kv ∈ d2 →
        (dictUpdateVal m d2).lookup kv.1 = some kv.2 := by
  intro d2
  induction d2 with
  | nil => intro _ m kv h; exact absurd h (List.not_mem_nil _)
  | cons kv0 rest ih =>
    intro hnd m kv hmem
    rw [List.map_cons, List.nodup_cons] at hnd
    unfold dictUpdateVal
    rw [List.foldl_cons]
    rcases List.mem_cons.mp hmem with hh | ht
    · rw [hh]
      have hpres : ∀ kv' ∈ rest, (kv0.1 == kv'.1) = false := by
        intro kv' hkv'
        rcases hq : (kv0.1 == kv'.1) with _ | _
        · rfl
        · exact absurd (eq_of_beq hq ▸ List.mem_map_of_mem Prod.fst hkv') hnd.1
      have := dictUpdate_preserves_other rest (dictSet m kv0.1 kv0.2) kv0.1 hpres
      unfold dictUpdateVal at this
      rw [this]
      exact dictSet_lookup_self m kv0.1 kv0.2
    · exact ih hnd.2 (dictSet m kv0.1 kv0.2) kv ht

theorem dictUpdate_nodup :
    ∀ (d2 m : List (Str × Val)), (m.map Prod.fst).Nodup →
      ((dictUpdateVal m d2).map Prod.fst).Nodup := by
  intro d2
  induction d2 with
  | nil => intro m h; exact h
  | cons kv rest ih =>
    intro m h
    unfold dictUpdateVal
    rw [List.foldl_cons]
    exact ih (dictSet m kv.1 kv.2) (dictSet_nodup m kv.1 kv.2 h)

theorem dictUpdate_absorb :
    ∀ (d2 M : List (Str × Val)), (M.map Prod.fst).Nodup →
      (∀ kv ∈ d2, M.lookup kv.1 = some kv.2) →
      dictUpdateVal M d2 = M := by
  intro d2
  induction d2 with
  | nil => intro M _ _; rfl
  | cons kv rest ih =>
    intro M hnd hcov
    unfold dictUpdateVal
    rw [List.foldl_cons, dictSet_noop M kv.1 kv.2 hnd (hcov kv (List.mem_cons_self _ _))]
    exact ih M hnd (fun kv' hkv' => hcov kv' (List.mem_cons_of_mem _ hkv'))

theorem dictUpdate_idem (d d2 : List (Str × Val))
    (hd : (d.map Prod.fst).Nodup) (hd2 : (d2.map Prod.fst).Nodup) :
    dictUpdateVal (dictUpdateVal d d2) d2 = dictUpdateVal d d2 :=
  dictUpdate_absorb d2 (dictUpdateVal d d2) (dictUpdate_nodup d2 d hd)
    (fun kv hkv => dictUpdate_covers d2 hd2 d kv hkv)

theorem pyUpdate_eq_ok_of_beq (v inc : Val) (hv : v ≠ Val.none)
    (h : Val.beq v inc = true) : pyUpdateField false (some v) inc = Except.ok v := by
  cases v <;> first
    | exact absurd rfl hv
    | simp [pyUpdateField, h]

theorem pyUpdate_none_incoming (v : Val) (hv : v ≠ Val.none) :
    pyUpdateField false (some v) Val.none = Except.ok v := by
  cases v <;> first
    | exact absurd rfl hv
    | simp [pyUpdateField, beq_none_right _ hv, isNoneVal]

/-- Items a set-typed field update iterates over, per incoming shape
(set/list elements, string characters, dict keys). -/
def setItemsOf : Val → Option (List Val)
  | Val.set s2 => some s2
  | Val.list l2 => some l2
  | Val.str s2 => some (s2.map (fun c => Val.str [c]))
  | Val.dict d2 => some (d2.map (fun kv => Val.str kv.1))
  | _ => Option.none

theorem pyStr_scalar_second (s0 : Str) (x : Val)
    (h1 : Val.beq (Val.str s0) x = false)
    (hx : x ≠ Val.none) (hshape : ∀ l2, x ≠ Val.list l2)
    {v1 : Val} (hok : pyUpdateField false (some (Val.str s0)) x = Except.ok v1) :
    (∃ l' l2, v1 = Val.list l' ∧ x = Val.list l2)
    ∨ pyUpdateField false (some v1) x = Except.ok v1 := by
  right
  have hmem : pyMem x [Val.str s0] = false := by
    unfold pyMem
    rw [List.any_cons, List.any_nil, h1, Bool.or_false]
  have hred : pyUpdateField false (some (Val.str s0)) x
      = Except.ok (Val.list [Val.str s0, x]) := by
    cases x <;> first
      | exact absurd rfl hx
      | exact absurd rfl (hshape _)
      | (simp [pyUpdateField, h1, isNoneVal, hmem])
  rw [hred] at hok
  rw [← Except.ok.inj hok]
  have h1' : Val.beq (Val.list [Val.str s0, x]) x = false := beq_list_shape _ x hshape
  have hmem2 : pyMem x [Val.str s0, x] = true := by
    unfold pyMem
    rw [List.any_cons, List.any_cons, List.any_nil, Val.beq_refl x]
    simp
  cases x <;> first
    | exact absurd rfl hx
    | exact absurd rfl (hshape _)
    | (simp [pyUpdateField, h1', isNoneVal, hmem2])

theorem pyList_scalar_second (l : List Val) (x : Val)
    (h1 : Val.beq (Val.list l) x = false)
    (hx : x ≠ Val.none) (hshape : ∀ l2, x ≠ Val.list l2)
    {v1 : Val} (hok : pyUpdateField false (some (Val.list l)) x = Except.ok v1) :
    (∃ l' l2, v1 = Val.list l' ∧ x = Val.list l2)
    ∨ pyUpdateField false (some v1) x = Except.ok v1 := by
  right
  have hred : ∀ (l0 : List Val),
      pyUpdateField false (some (Val.list l0)) x
        = (if pyMem x l0 then Except.ok (Val.list l0)
           else Except.ok (Val.list (l0 ++ [x]))) := by
    intro l0
    have h1' : Val.beq (Val.list l0) x = false := beq_list_shape l0 x hshape
    cases x <;> first
      | exact absurd rfl hx
      | exact absurd rfl (hshape _)
      | simp [pyUpdateField, h1', isNoneVal]
  rw [hred l] at hok
  by_cases hm : pyMem x l = true
  · rw [if_pos hm] at hok
    rw [← Except.ok.inj hok, hred l, if_pos hm]
  · rw [if_neg hm] at hok
    rw [← Except.ok.inj hok, hred (l ++ [x]), if_pos (pyMem_append_self x l)]

theorem pySet_second (s : List Val) (inc : Val) (items : List Val)
    (h1 : Val.beq (Val.set s) inc = false)
    (hitems : setItemsOf inc = some items)
    {v1 : Val} (hok : pyUpdateField false (some (Val.set s)) inc = Except.ok v1) :
    (∃ l' l2, v1 = Val.list l' ∧ inc = Val.list l2)
    ∨ pyUpdateField false (some v1) inc = Except.ok v1 := by
  right
  have hred : ∀ (s0 : List Val), Val.beq (Val.set s0) inc = false →
      pyUpdateField false (some (Val.set s0)) inc
        = Except.ok (Val.set (setUpdateVal s0 items)) := by
    intro s0 h1'
    cases inc with
    | set s2 =>
      rw [← Option.some.inj hitems]
      simp [pyUpdateField, h1', isNoneVal]
    | list l2 =>
      rw [← Option.some.inj hitems]
      simp [pyUpdateField, h1', isNoneVal]
    | str s2 =>
      rw [← Option.some.inj hitems]
      simp [pyUpdateField, h1', isNoneVal]
    | dict d2 =>
      rw [← Option.some.inj hitems]
      simp [pyUpdateField, h1', isNoneVal]
    | none => exact Option.noConfusion hitems
    | bool b => exact Option.noConfusion hitems
    | int i => exact Option.noConfusion hitems
  rw [hred s h1] at hok
  rw [← Except.ok.inj hok]
  by_cases h1' : Val.beq (Val.set (setUpdateVal s items)) inc = true
  · exact pyUpdate_eq_ok_of_beq _ _ (fun h => Val.noConfusion h) h1'
  · rw [Bool.not_eq_true] at h1'
    rw [hred (setUpdateVal s items) h1', setUpdate_idem s items]

/-- C8 counterexample: one concrete entity updated twice with identical
keyword arguments.  The list-typed field published_topic_names is
extended again on the second call, so the second identical call changes
a field other than version; and version is already incremented by the
very first call. -/
theorem c8_idempotence_cex :
    updateAttributes
        [("version".data, Val.int 0),
         ("published_topic_names".data, Val.list [Val.str "a".data])]
        [("version".data, Val.int 0),
         ("published_topic_names".data, Val.list [Val.str "b".data])]
      = Except.ok
        [("version".data, Val.int 1),
         ("published_topic_names".data,
          Val.list [Val.str "a".data, Val.str "b".data])]
    ∧ updateAttributes
        [("version".data, Val.int 1),
         ("published_topic_names".data,
          Val.list [Val.str "a".data, Val.str "b".data])]
        [("version".data, Val.int 0),
         ("published_topic_names".data, Val.list [Val.str "b".data])]
      = Except.ok
        [("version".data, Val.int 2),
         ("published_topic_names".data,
          Val.list [Val.str "a".data, Val.str "b".data, Val.str "b".data])]
    ∧ Val.list [Val.str "a".data, Val.str "b".data, Val.str "b".data]
        ≠ Val.list [Val.str "a".data, Val.str "b".data] :=
  ⟨rfl, rfl, by
    intro h
    injection h with h'
    exact absurd (congrArg List.length h') (by decide)⟩

/-- C8 (amended): a second identical update is a no-op on every field
except version and except list-typed fields receiving a list value,
which are extended again on every call; version increments on every call
whose current version is an int and whose incoming version is not None —
including the very first call. -/
theorem c8_update_attributes_amended :
    (∀ (cur : Option Val) (inc v1 : Val),
       (∀ d, cur = some (Val.dict d) → (d.map Prod.fst).Nodup) →
       (∀ d2, inc = Val.dict d2 → (d2.map Prod.fst).Nodup) →
       pyUpdateField false cur inc = Except.ok v1 →
       (∃ l l2, v1 = Val.list l ∧ inc = Val.list l2)
       ∨ pyUpdateField false (some v1) inc = Except.ok v1)
    ∧ (∀ (i : Int) (inc : Val), inc ≠ Val.none →
        ∃ n : Int,
          pyUpdateField true (some (Val.int i)) inc = Except.ok (Val.int n)
          ∧ i < n) := by
  constructor
  · intro cur inc v1 hwd hwd2 hok
    cases cur with
    | none =>
      right
      have hv : inc = v1 := Except.ok.inj hok
      rw [← hv]
      exact second_ok_of_eq inc
    | some v =>
      cases v with
      | none =>
        right
        have hv : inc = v1 := Except.ok.inj hok
        rw [← hv]
        exact second_ok_of_eq inc
      | bool b =>
        by_cases h1 : Val.beq (Val.bool b) inc = true
        · right
          rw [pyUpdate_eq_ok_of_beq _ _ (fun h => Val.noConfusion h) h1] at hok
          rw [← Except.ok.inj hok]
          exact pyUpdate_eq_ok_of_beq _ _ (fun h => Val.noConfusion h) h1
        · by_cases h2 : inc = Val.none
          · subst h2
            rw [pyUpdate_none_incoming _ (fun h => Val.noConfusion h)] at hok
            right
            rw [← Except.ok.inj hok]
            exact pyUpdate_none_incoming _ (fun h => Val.noConfusion h)
          · right
            rw [Bool.not_eq_true] at h1
            simp only [pyUpdateField, h1, Bool.false_and, Bool.false_eq_true, if_false,
              isNoneVal_eq_false inc h2] at hok
            rw [← Except.ok.inj hok]
            exact second_ok_of_eq inc
      | int i =>
        by_cases h1 : Val.beq (Val.int i) inc = true
        · right
          rw [pyUpdate_eq_ok_of_beq _ _ (fun h => Val.noConfusion h) h1] at hok
          rw [← Except.ok.inj hok]
          exact pyUpdate_eq_ok_of_beq _ _ (fun h => Val.noConfusion h) h1
        · by_cases h2 : inc = Val.none
          · subst h2
            rw [pyUpdate_none_incoming _ (fun h => Val.noConfusion h)] at hok
            right
            rw [← Except.ok.inj hok]
            exact pyUpdate_none_incoming _ (fun h => Val.noConfusion h)
          · right
            rw [Bool.not_eq_true] at h1
            simp only [pyUpdateField, h1, Bool.false_and, Bool.false_eq_true, if_false,
              isNoneVal_eq_false inc h2] at hok
            rw [← Except.ok.inj hok]
            exact second_ok_of_eq inc
      | str s0 =>
        by_cases h1 : Val.beq (Val.str s0) inc = true
        · right
          rw [pyUpdate_eq_ok_of_beq _ _ (fun h => Val.noConfusion h) h1] at hok
          rw [← Except.ok.inj hok]
          exact pyUpdate_eq_ok_of_beq _ _ (fun h => Val.noConfusion h) h1
        · by_cases h2 : inc = Val.none
          · subst h2
            rw [pyUpdate_none_incoming _ (fun h => Val.noConfusion h)] at hok
            right
            rw [← Except.ok.inj hok]
            exact pyUpdate_none_incoming _ (fun h => Val.noConfusion h)
          · rw [Bool.not_eq_true] at h1
            cases inc with
            | none => exact absurd rfl h2
            | list l2 =>
              left
              simp only [pyUpdateField, h1, Bool.false_and, Bool.false_eq_true, if_false,
                isNoneVal] at hok
              exact ⟨Val.str s0 :: l2, l2, (Except.ok.inj hok).symm, rfl⟩
            | bool b =>
              exact pyStr_scalar_second s0 (Val.bool b) h1 (fun h => Val.noConfusion h)
                (fun l2 h => Val.noConfusion h) hok
            | int i =>
              exact pyStr_scalar_second s0 (Val.int i) h1 (fun h => Val.noConfusion h)
                (fun l2 h => Val.noConfusion h) hok
            | str s2 =>
              exact pyStr_scalar_second s0 (Val.str s2) h1 (fun h => Val.noConfusion h)
                (fun l2 h => Val.noConfusion h) hok
            | dict d2 =>
              exact pyStr_scalar_second s0 (Val.dict d2) h1 (fun h => Val.noConfusion h)
                (fun l2 h => Val.noConfusion h) hok
            | set s2 =>
              exact pyStr_scalar_second s0 (Val.set s2) h1 (fun h => Val.noConfusion h)
                (fun l2 h => Val.noConfusion h) hok
      | list l =>
        by_cases h1 : Val.beq (Val.list l) inc = true
        · right
          rw [pyUpdate_eq_ok_of_beq _ _ (fun h => Val.noConfusion h) h1] at hok
          rw [← Except.ok.inj hok]
          exact pyUpdate_eq_ok_of_beq _ _ (fun h => Val.noConfusion h) h1
        · by_cases h2 : inc = Val.none
          · subst h2
            rw [pyUpdate_none_incoming _ (fun h => Val.noConfusion h)] at hok
            right
            rw [← Except.ok.inj hok]
            exact pyUpdate_none_incoming _ (fun h => Val.noConfusion h)
          · rw [Bool.not_eq_true] at h1
            cases inc with
            | none => exact absurd rfl h2
            | list l2 =>
              left
              simp only [pyUpdateField, h1, Bool.false_and, Bool.false_eq_true, if_false,
                isNoneVal] at hok
              exact ⟨l ++ l2, l2, (Except.ok.inj hok).symm, rfl⟩
            | bool b =>
              exact pyList_scalar_second l (Val.bool b) h1 (fun h => Val.noConfusion h)
                (fun l2 h => Val.noConfusion h) hok
            | int i =>
              exact pyList_scalar_second l (Val.int i) h1 (fun h => Val.noConfusion h)
                (fun l2 h => Val.noConfusion h) hok
            | str s2 =>
              exact pyList_scalar_second l (Val.str s2) h1 (fun h => Val.noConfusion h)
                (fun l2 h => Val.noConfusion h) hok
            | dict d2 =>
              exact pyList_scalar_second l (Val.dict d2) h1 (fun h => Val.noConfusion h)
                (fun l2 h => Val.noConfusion h) hok
            | set s2 =>
              exact pyList_scalar_second l (Val.set s2) h1 (fun h => Val.noConfusion h)
                (fun l2 h => Val.noConfusion h) hok
      | dict d =>
        by_cases h1 : Val.beq (Val.dict d) inc = true
        · right
          rw [pyUpdate_eq_ok_of_beq _ _ (fun h => Val.noConfusion h) h1] at hok
          rw [← Except.ok.inj hok]
          exact pyUpdate_eq_ok_of_beq _ _ (fun h => Val.noConfusion h) h1
        · by_cases h2 : inc = Val.none
          · subst h2
            rw [pyUpdate_none_incoming _ (fun h => Val.noConfusion h)] at hok
            right
            rw [← Except.ok.inj hok]
            exact pyUpdate_none_incoming _ (fun h => Val.noConfusion h)
          · rw [Bool.not_eq_true] at h1
            cases inc with
            | none => exact absurd rfl h2
            | dict d2 =>
              right
              simp only [pyUpdateField, h1, Bool.false_and, Bool.false_eq_true, if_false,
                isNoneVal] at hok
              rw [← Except.ok.inj hok]
              by_cases h1' : Val.beq (Val.dict (dictUpdateVal d d2)) (Val.dict d2) = true
              · exact pyUpdate_eq_ok_of_beq _ _ (fun h => Val.noConfusion h) h1'
              · rw [Bool.not_eq_true] at h1'
                simp only [pyUpdateField, h1', Bool.false_and, Bool.false_eq_true,
                  if_false, isNoneVal]
                rw [dictUpdate_idem d d2 (hwd d rfl) (hwd2 d2 rfl)]
            | bool b => simp [pyUpdateField, h1, isNoneVal] at hok
            | int i => simp [pyUpdateField, h1, isNoneVal] at hok
            | str s2 => simp [pyUpdateField, h1, isNoneVal] at hok
            | list l2 => simp [pyUpdateField, h1, isNoneVal] at hok
            | set s2 => simp [pyUpdateField, h1, isNoneVal] at hok
      | set s =>
        by_cases h1 : Val.beq (Val.set s) inc = true
        · right
          rw [pyUpdate_eq_ok_of_beq _ _ (fun h => Val.noConfusion h) h1] at hok
          rw [← Except.ok.inj hok]
          exact pyUpdate_eq_ok_of_beq _ _ (fun h => Val.noConfusion h) h1
        · by_cases h2 : inc = Val.none
          · subst h2
            rw [pyUpdate_none_incoming _ (fun h => Val.noConfusion h)] at hok
            right
            rw [← Except.ok.inj hok]
            exact pyUpdate_none_incoming _ (fun h => Val.noConfusion h)
          · rw [Bool.not_eq_true] at h1
            cases inc with
            | none => exact absurd rfl h2
            | set s2 =>
              exact pySet_second s (Val.set s2) s2 h1 rfl hok
            | list l2 =>
              exact pySet_second s (Val.list l2) l2 h1 rfl hok
            | str s2 =>
              exact pySet_second s (Val.str s2) (s2.map (fun c => Val.str [c])) h1 rfl hok
            | dict d2 =>
              exact pySet_second s (Val.dict d2)
                (d2.map (fun kv : Str × Val => Val.str kv.1)) h1 rfl hok
            | bool b => simp [pyUpdateField, h1, isNoneVal] at hok
            | int i => simp [pyUpdateField, h1, isNoneVal] at hok
  · intro i inc hne
    refine ⟨(match pyIntOfVal inc with | some j => max i j | Option.none => i) + 1,
      ?_, ?_⟩
    · simp [pyUpdateField, isNoneVal_eq_false inc hne]
    · cases hj : pyIntOfVal inc with
      | none => simp
      | some j =>
        simp only
        exact Int.lt_add_one_iff.mpr (le_max_left i j)

/-- C8 witness: the amended second-call no-op, applied at a concrete
non-list field. -/
theorem c8_update_attributes_amended_witness :
    (∃ l l2, Val.int 7 = Val.list l ∧ Val.int 7 = Val.list l2)
    ∨ pyUpdateField false (some (Val.int 7)) (Val.int 7) = Except.ok (Val.int 7) :=
  c8_update_attributes_amended.1 (some (Val.int 3)) (Val.int 7) (Val.int 7)
    (fun d h => by injection h with h2; exact Val.noConfusion h2)
    (fun d2 h => Val.noConfusion h) rfl

end UpdateAttributesTheorems

/-- C9: for every BankBuilder, a lookup of an absent name creates and
stores a fresh builder for that name and never fails, including after
`prepare()` has removed that name as filtered, so a filtered-out entity
name silently re-enters the bank on any later lookup. -/
theorem c9_bank_lookup_recreates_filtered {β : Type} (create : Str → β)
    (nameOf : β → Str) (filt : Str → β → Bool) (prepOne : β → β)
    (b : BankBuilder β) (name : Str)
    (hname : nameOf (create name) = name) :
    (dictContains b.namesTo name = false →
       b.getItem create nameOf name
         = (b.addEntityBuilder nameOf (create name), some (create name)))
    ∧ ((b.getItem create nameOf name).2.isSome = true)
    ∧ (dictContains ((b.getItem create nameOf name).1).namesTo name = true)
    ∧ ((∀ v : β, filt name v = true) →
         dictContains (b.prepare filt prepOne).namesTo name = false
         ∧ (b.prepare filt prepOne).getItem create nameOf name
             = ((b.prepare filt prepOne).addEntityBuilder nameOf (create name),
                some (create name))) := by
  have hnone_of : ∀ b' : BankBuilder β, dictContains b'.namesTo name = false →
      b'.namesTo.lookup name = none := by
    intro b' h
    unfold dictContains at h
    cases hl : b'.namesTo.lookup name with
    | none => rfl
    | some v => rw [hl] at h; exact Bool.noConfusion h
  have habs : ∀ b' : BankBuilder β, dictContains b'.namesTo name = false →
      b'.getItem create nameOf name
        = (b'.addEntityBuilder nameOf (create name), some (create name)) := by
    intro b' h
    have hnone := hnone_of b' h
    unfold BankBuilder.getItem
    rw [if_neg (by rw [h]; exact Bool.noConfusion)]
    unfold BankBuilder.addEntityBuilder dictSet
    rw [hname, hnone]
    simp only [Option.isSome_none, Bool.false_eq_true, if_false]
    rw [lookup_append_single_of_none _ _ _ hnone]
  have hcontains : ∀ b' : BankBuilder β,
      dictContains ((b'.getItem create nameOf name).1).namesTo name = true := by
    intro b'
    by_cases h : dictContains b'.namesTo name = true
    · unfold BankBuilder.getItem
      rw [if_pos h]
      exact h
    · have h' : dictContains b'.namesTo name = false := by
        cases hd : dictContains b'.namesTo name with
        | false => rfl
        | true => exact absurd hd h
      rw [habs b' h']
      unfold BankBuilder.addEntityBuilder dictContains dictSet
      have hnone := hnone_of b' h'
      rw [hname, hnone]
      simp only [Option.isSome_none, Bool.false_eq_true, if_false]
      rw [lookup_append_single_of_none _ _ _ hnone]
      rfl
  refine ⟨habs b, ?_, hcontains b, ?_⟩
  · by_cases h : dictContains b.namesTo name = true
    · unfold BankBuilder.getItem
      rw [if_pos h]
      unfold dictContains at h
      exact h
    · have h' : dictContains b.namesTo name = false := by
        cases hd : dictContains b.namesTo name with
        | false => rfl
        | true => exact absurd hd h
      rw [habs b h']
      rfl
  · intro hall
    have hgone : dictContains (b.prepare filt prepOne).namesTo name = false := by
      unfold BankBuilder.prepare BankBuilder.gatherFiltered dictContains
      simp only
      rw [lookup_filter_prep_none filt prepOne b.namesTo name hall]
      rfl
    exact ⟨hgone, habs _ hgone⟩

/-- C9 witness: on a concrete bank holding one builder that the filter
excludes, the name disappears at prepare() and a later lookup recreates
and stores a fresh builder for it. -/
theorem c9_bank_lookup_recreates_filtered_witness :
    dictContains
        ((BankBuilder.mk [("x".data, "x".data)] : BankBuilder Str).prepare
          (fun _ _ => true) (fun b => b)).namesTo "x".data = false
    ∧ ((BankBuilder.mk [("x".data, "x".data)] : BankBuilder Str).prepare
          (fun _ _ => true) (fun b => b)).getItem (fun n => n) (fun n => n) "x".data
        = (((BankBuilder.mk [("x".data, "x".data)] : BankBuilder Str).prepare
              (fun _ _ => true) (fun b => b)).addEntityBuilder (fun n => n) "x".data,
           some "x".data) :=
  (c9_bank_lookup_recreates_filtered (fun n => n) (fun n => n) (fun _ _ => true)
    (fun b => b) ⟨[("x".data, "x".data)]⟩ "x".data rfl).2.2.2 (fun _ => rfl)

/-- C10: each Filter singleton holds its class-level BASE_EXCLUSIONS set
by reference, so an item added to the class set after the singleton's
first use is seen by `should_filter_out`; only the debug/transform
selection flags are frozen at first use. -/
theorem c10_filter_base_exclusions_live (c : FilterClass) (item : Str) (d t : Bool) :
    shouldFilterOut (addBaseExclusion (getFilter c).1 item) (getFilter c).2 item = true
    ∧ (getFilter (setFlags (getFilter c).1 d t)).2 = (getFilter c).2 := by
  constructor
  · unfold shouldFilterOut addBaseExclusion
    simp
  · cases h : c.inst with
    | some i => simp [getFilter, setFlags, h]
    | none => simp [getFilter, setFlags, h]

end RosSnapshot
